import Mathlib

/-!
# GG-CORE runtime: verification of spec claims

Shallow embedding of the parts of the `core-runtime` crate that the spec
claims talk about, together with proofs or refutations of those claims.

Bytes are modelled as `Nat` (source: `u8`; every operation modelled here is
overflow-free), byte strings as `List Nat`, text as `List Char`, machine
integers as `Nat`, and monotonic instants (`std::time::Instant`) as `Nat`
time stamps with explicit monotonicity hypotheses where the source relies
on monotonic clocks.
-/

set_option maxRecDepth 10000

namespace GGCore

/-! ## `ipc/auth_session.rs` : constant-time comparison

Source (`src/core-runtime/src/ipc/auth_session.rs`, `constant_time_compare`):
length mismatch returns `false` immediately; otherwise the byte-wise
`fold(0u8, |acc, (x, y)| acc | (x ^ y))` is compared with `0`.
-/

/-- Embedding of `constant_time_compare` from `auth_session.rs`.
`a.iter().zip(b.iter())` is `List.zip`, `u8` bit operations are the
corresponding `Nat` bit operations (no overflow is involved). -/
def constant_time_compare (a b : List Nat) : Bool :=
  if a.length ≠ b.length then false
  else decide (((a.zip b).foldl (fun acc xy => acc ||| (xy.1 ^^^ xy.2)) 0) = 0)

lemma nat_or_eq_zero (a b : Nat) : a ||| b = 0 ↔ a = 0 ∧ b = 0 := by
  constructor
  · intro h
    have hb : ∀ i, (a ||| b).testBit i = false := by simp [h]
    refine ⟨Nat.zero_of_testBit_eq_false fun i => ?_,
      Nat.zero_of_testBit_eq_false fun i => ?_⟩
    · have := hb i
      rw [Nat.testBit_lor] at this
      exact (Bool.or_eq_false_iff.mp this).1
    · have := hb i
      rw [Nat.testBit_lor] at this
      exact (Bool.or_eq_false_iff.mp this).2
  · rintro ⟨rfl, rfl⟩
    rfl

lemma or_fold_eq_zero (l : List (Nat × Nat)) (acc : Nat) :
    (l.foldl (fun acc xy => acc ||| (xy.1 ^^^ xy.2)) acc) = 0 ↔
      acc = 0 ∧ ∀ xy ∈ l, xy.1 = xy.2 := by
  induction l generalizing acc with
  | nil => simp
  | cons hd tl ih =>
    simp only [List.foldl_cons, ih, nat_or_eq_zero, List.mem_cons]
    constructor
    · rintro ⟨⟨h1, h2⟩, h3⟩
      refine ⟨h1, ?_⟩
      rintro xy (rfl | hxy)
      · exact Nat.xor_eq_zero.mp h2
      · exact h3 xy hxy
    · rintro ⟨h1, h2⟩
      exact ⟨⟨h1, Nat.xor_eq_zero.mpr (h2 hd (Or.inl rfl))⟩, fun xy hxy => h2 xy (Or.inr hxy)⟩

lemma zip_forall_eq : ∀ {a b : List Nat}, a.length = b.length →
    ((∀ xy ∈ a.zip b, xy.1 = xy.2) ↔ a = b) := by
  intro a
  induction a with
  | nil =>
    intro b hb
    cases b with
    | nil => simp
    | cons y ys => simp at hb
  | cons x xs ih =>
    intro b hb
    cases b with
    | nil => simp at hb
    | cons y ys =>
      simp only [List.length_cons, Nat.succ.injEq] at hb
      simp only [List.zip_cons_cons, List.mem_cons, List.cons.injEq]
      constructor
      · intro h
        refine ⟨h (x, y) (Or.inl rfl), (ih hb).mp ?_⟩
        intro xy hxy
        exact h xy (Or.inr hxy)
      · rintro ⟨rfl, rfl⟩
        rintro xy (rfl | hxy)
        · rfl
        · exact ((ih hb).mpr rfl) xy hxy

lemma constant_time_compare_iff (a b : List Nat) :
    constant_time_compare a b = true ↔ a = b := by
  unfold constant_time_compare
  by_cases hlen : a.length = b.length
  · rw [if_neg (by simp [hlen])]
    simp only [decide_eq_true_eq, or_fold_eq_zero, true_and]
    exact zip_forall_eq hlen
  · rw [if_pos (by simpa using hlen)]
    simp only [Bool.false_eq_true, false_iff]
    intro h
    exact hlen (by rw [h])

/-- **C10**: `constant_time_compare(a, b)` returns `true` iff `a` and `b` are
equal byte sequences, and in particular returns `false` whenever the two
slices have different lengths. -/
theorem C10_constant_time_compare_correct (a b : List Nat) :
    (constant_time_compare a b = true ↔ a = b) ∧
      (a.length ≠ b.length → constant_time_compare a b = false) := by
  refine ⟨constant_time_compare_iff a b, fun hlen => ?_⟩
  unfold constant_time_compare
  rw [if_pos hlen]

/-- Witness for C10: the length-mismatch branch evaluated at concrete input. -/
theorem C10_constant_time_compare_correct_witness :
    constant_time_compare [1, 2] [1, 2, 3] = false :=
  (C10_constant_time_compare_correct [1, 2] [1, 2, 3]).2 (by decide)

/-! ## `security/encryption_core.rs` : nonce tracker

Source: `check_and_register_nonce` guards the global
`HashSet<[u8; NONCE_SIZE]>`.  The set is modelled as a duplicate-free list in
iteration order; `guard.iter().take(MAX_NONCE_HISTORY / 2)` followed by
removal of those keys is modelled as `List.drop (MAX_NONCE_HISTORY / 2)`, and
`guard.insert(*nonce)` as appending.  The lock is uncontended in a
sequential execution, so the poisoned-lock branch is unreachable. -/

/-- `MAX_NONCE_HISTORY` from `encryption_core.rs`. -/
def MAX_NONCE_HISTORY : Nat := 10000

/-- Subset of `EncryptionError` from `encryption_core.rs` relevant here
(string payloads dropped). -/
inductive EncryptionError where
  | EncryptionFailed
  | DecryptionFailed
  | AuthenticationFailed
  | NonceReuseDetected
  deriving DecidableEq, Repr

/-- Embedding of `check_and_register_nonce`: returns the result together
with the updated tracker contents. -/
def check_and_register_nonce (guard : List (List Nat)) (nonce : List Nat) :
    Except EncryptionError Unit × List (List Nat) :=
  if nonce ∈ guard then (.error .NonceReuseDetected, guard)
  else
    let guard' :=
      if MAX_NONCE_HISTORY ≤ guard.length then guard.drop (MAX_NONCE_HISTORY / 2)
      else guard
    (.ok (), guard' ++ [nonce])

/-- Registering a sequence of nonces one call after another (the calls
happening between the two calls of interest). -/
def registerSeq (guard : List (List Nat)) : List (List Nat) → List (List Nat)
  | [] => guard
  | m :: ms => registerSeq (check_and_register_nonce guard m).2 ms

lemma registerSeq_preserves (ms : List (List Nat)) :
    ∀ (guard : List (List Nat)) (n : List Nat), n ∈ guard →
      guard.length + ms.length ≤ MAX_NONCE_HISTORY →
      n ∈ registerSeq guard ms ∧
        (registerSeq guard ms).length ≤ guard.length + ms.length := by
  induction ms with
  | nil => intro g n hn _; simpa [registerSeq] using hn
  | cons m ms ih =>
    intro g n hn hlen
    simp only [List.length_cons] at hlen
    by_cases hm : m ∈ g
    · have step : (check_and_register_nonce g m).2 = g := by
        simp [check_and_register_nonce, hm]
      have := ih g n hn (by omega)
      rw [registerSeq, step]
      refine ⟨this.1, ?_⟩
      simp only [List.length_cons]
      omega
    · have hlt : ¬ MAX_NONCE_HISTORY ≤ g.length := by omega
      have step : (check_and_register_nonce g m).2 = g ++ [m] := by
        simp [check_and_register_nonce, hm, hlt]
      have := ih (g ++ [m]) n (by simp [hn])
        (by simp only [List.length_append, List.length_singleton]; omega)
      rw [registerSeq, step]
      refine ⟨this.1, ?_⟩
      have h2 := this.2
      simp only [List.length_append, List.length_singleton] at h2
      simp only [List.length_cons]
      omega

/-- **C3**: a nonce that is fresh when first registered yields `Ok`; a second
registration of the same nonce yields `NonceReuseDetected`, as long as fewer
than the tracker capacity (10000) of nonces are registered in between, so
that no half-trim can evict it. -/
theorem C3_nonce_reuse_detected (guard : List (List Nat)) (n : List Nat)
    (ms : List (List Nat)) (hfresh : n ∉ guard)
    (hcap : guard.length + ms.length < MAX_NONCE_HISTORY) :
    (check_and_register_nonce guard n).1 = .ok () ∧
      (check_and_register_nonce
        (registerSeq (check_and_register_nonce guard n).2 ms) n).1 =
        .error .NonceReuseDetected := by
  have hlt : ¬ MAX_NONCE_HISTORY ≤ guard.length := by omega
  have hfst : check_and_register_nonce guard n = (.ok (), guard ++ [n]) := by
    simp [check_and_register_nonce, hfresh, hlt]
  refine ⟨by rw [hfst], ?_⟩
  rw [hfst]
  have hmem : n ∈ guard ++ [n] := by simp
  have hpres := registerSeq_preserves ms (guard ++ [n]) n hmem
    (by simp only [List.length_append, List.length_singleton]; omega)
  simp [check_and_register_nonce, hpres.1]

/-- Witness for C3 at concrete input: empty tracker, the all-zero 12-byte
nonce, one other nonce registered in between. -/
theorem C3_nonce_reuse_detected_witness :
    (check_and_register_nonce [] (List.replicate 12 0)).1 = .ok () ∧
      (check_and_register_nonce
        (registerSeq (check_and_register_nonce [] (List.replicate 12 0)).2
          [List.replicate 12 1]) (List.replicate 12 0)).1 =
        .error .NonceReuseDetected :=
  C3_nonce_reuse_detected [] (List.replicate 12 0) [List.replicate 12 1]
    (by decide) (by decide)

/-! ## `ipc/auth_session.rs` + `ipc/auth.rs` : rate limiter and sessions

`std::time::Instant` is modelled as a `Nat` time stamp (one unit = one
second; the constants below are the source constants in seconds) and
`Instant` subtraction as truncated `Nat` subtraction, which matches the
monotonic-clock behaviour of `duration_since` / `elapsed`.  Tokens are
modelled by their SHA-256 digests (byte lists); the SHA-256 function
itself lives in the external `sha2` crate, and both sides of the
comparison in `authenticate` are digests, compared with
`constant_time_compare`.  Session ids come from the OS CSPRNG
(`generate_session_id`), modelled as a caller-supplied value. -/

/-- `MAX_FAILED_ATTEMPTS` from `auth_session.rs`. -/
def MAX_FAILED_ATTEMPTS : Nat := 5
/-- `RATE_LIMIT_DURATION` (30 s) from `auth_session.rs`. -/
def RATE_LIMIT_DURATION : Nat := 30
/-- `ATTEMPT_WINDOW` (60 s) from `auth_session.rs`. -/
def ATTEMPT_WINDOW : Nat := 60
/-- `MAX_REQUESTS_PER_MINUTE` from `auth_session.rs`. -/
def MAX_REQUESTS_PER_MINUTE : Nat := 1000
/-- `REQUEST_WINDOW` (60 s) from `auth_session.rs`. -/
def REQUEST_WINDOW : Nat := 60

/-- `RateLimiter` state from `auth_session.rs`. -/
structure RateLimiter where
  failed_attempts : Nat
  window_start : Option Nat
  blocked_until : Option Nat
  deriving DecidableEq, Repr

/-- `RateLimiter::new`. -/
def RateLimiter.new : RateLimiter := ⟨0, none, none⟩

/-- `RateLimiter::is_rate_limited` at time `now`. -/
def RateLimiter.is_rate_limited (rl : RateLimiter) (now : Nat) : Bool :=
  match rl.blocked_until with
  | some u => now < u
  | none => false

/-- `RateLimiter::record_failure` at time `now`. -/
def RateLimiter.record_failure (rl : RateLimiter) (now : Nat) : RateLimiter :=
  let should_reset : Bool :=
    match rl.window_start with
    | some start => decide (ATTEMPT_WINDOW < now - start)
    | none => true
  if should_reset then
    { rl with failed_attempts := 1, window_start := some now }
  else
    let attempts := rl.failed_attempts + 1
    if MAX_FAILED_ATTEMPTS ≤ attempts then
      { rl with failed_attempts := attempts,
                blocked_until := some (now + RATE_LIMIT_DURATION) }
    else
      { rl with failed_attempts := attempts }

/-- `RateLimiter::reset`. -/
def RateLimiter.reset : RateLimiter := ⟨0, none, none⟩

/-- `Session` state from `auth_session.rs`. -/
structure Session where
  created_at : Nat
  last_activity : Nat
  connection_count : Nat
  request_count : Nat
  request_window_start : Option Nat
  deriving DecidableEq, Repr

/-- `AuthError` from `auth.rs`. -/
inductive AuthError where
  | InvalidToken
  | SessionNotFound
  | SessionExpired
  | NotAuthenticated
  | RateLimited
  | SessionRateLimited
  deriving DecidableEq, Repr

/-- `SessionAuth` state from `auth.rs`; the `HashMap<SessionToken, Session>`
is modelled as an association list keyed by session id. -/
structure SessionAuth where
  sessions : List (Nat × Session)
  expected_token_hash : List Nat
  session_timeout : Nat
  rate_limiter : RateLimiter
  deriving DecidableEq, Repr

/-- `SessionAuth::new` with a given expected-token digest and timeout. -/
def SessionAuth.new (expectedHash : List Nat) (timeout : Nat) : SessionAuth :=
  ⟨[], expectedHash, timeout, RateLimiter.new⟩

/-- Embedding of `SessionAuth::authenticate`.  `tokenHash` is the SHA-256
digest of the candidate token, `newId` the CSPRNG session id drawn on
success, `now` the current instant. -/
def SessionAuth.authenticate (st : SessionAuth) (tokenHash : List Nat)
    (newId : Nat) (now : Nat) : Except AuthError Nat × SessionAuth :=
  if st.rate_limiter.is_rate_limited now then (.error .RateLimited, st)
  else if ¬ constant_time_compare tokenHash st.expected_token_hash then
    (.error .InvalidToken,
      { st with rate_limiter := st.rate_limiter.record_failure now })
  else
    (.ok newId,
      { st with
        rate_limiter := RateLimiter.reset,
        sessions := (newId,
          { created_at := now, last_activity := now, connection_count := 0,
            request_count := 0, request_window_start := some now })
          :: st.sessions })

/-- `sessions.get_mut(token)` on the association list. -/
def SessionAuth.findSession (st : SessionAuth) (token : Nat) : Option Session :=
  (st.sessions.find? fun p => p.1 = token).map (·.2)

/-- `sessions.remove(token)` on the association list. -/
def removeSession (sessions : List (Nat × Session)) (token : Nat) :
    List (Nat × Session) :=
  sessions.filter (fun p => p.1 ≠ token)

/-- In-place update of the session stored under `token`. -/
def updateSession (sessions : List (Nat × Session)) (token : Nat) (s : Session) :
    List (Nat × Session) :=
  sessions.map (fun p => if p.1 = token then (token, s) else p)

/-- Embedding of `SessionAuth::validate` at time `now` (the minimum-wall-time
padding at the end affects timing only, not the result or the state). -/
def SessionAuth.validate (st : SessionAuth) (token : Nat) (now : Nat) :
    Except AuthError Unit × SessionAuth :=
  match st.findSession token with
  | none => (.error .SessionNotFound, st)
  | some s =>
    if st.session_timeout < now - s.created_at then
      (.error .SessionExpired, { st with sessions := removeSession st.sessions token })
    else
      let should_reset : Bool :=
        match s.request_window_start with
        | some ws => decide (REQUEST_WINDOW < now - ws)
        | none => true
      if should_reset then
        let s' : Session :=
          { s with
            request_count := 1
            request_window_start := some now
            last_activity := now }
        (.ok (), { st with sessions := updateSession st.sessions token s' })
      else
        let count := s.request_count + 1
        if MAX_REQUESTS_PER_MINUTE < count then
          let s' : Session := { s with request_count := count }
          (.error .SessionRateLimited,
            { st with sessions := updateSession st.sessions token s' })
        else
          let s' : Session := { s with request_count := count, last_activity := now }
          (.ok (), { st with sessions := updateSession st.sessions token s' })

lemma ctc_self (a : List Nat) : constant_time_compare a a = true :=
  (constant_time_compare_iff a a).mpr rfl

lemma ctc_ne {a b : List Nat} (h : a ≠ b) : constant_time_compare a b = false := by
  cases hcb : constant_time_compare a b
  · rfl
  · exact absurd ((constant_time_compare_iff a b).mp hcb) h

lemma auth_fail_step (st : SessionAuth) (w : List Nat) (idn t : Nat)
    (hw : w ≠ st.expected_token_hash)
    (hnb : st.rate_limiter.blocked_until = none) :
    st.authenticate w idn t =
      (.error .InvalidToken,
        { st with rate_limiter := st.rate_limiter.record_failure t }) := by
  have hlim : st.rate_limiter.is_rate_limited t = false := by
    simp [RateLimiter.is_rate_limited, hnb]
  simp [SessionAuth.authenticate, hlim, ctc_ne hw]

lemma record_failure_fresh (t : Nat) :
    RateLimiter.new.record_failure t = ⟨1, some t, none⟩ := by
  simp [RateLimiter.new, RateLimiter.record_failure]

lemma record_failure_in_window (rl : RateLimiter) (t0 t : Nat)
    (hws : rl.window_start = some t0) (hwin : t - t0 ≤ ATTEMPT_WINDOW)
    (hcnt : rl.failed_attempts + 1 < MAX_FAILED_ATTEMPTS) :
    rl.record_failure t = { rl with failed_attempts := rl.failed_attempts + 1 } := by
  have h1 : ¬ ATTEMPT_WINDOW < t - t0 := by omega
  have h2 : ¬ MAX_FAILED_ATTEMPTS ≤ rl.failed_attempts + 1 := by omega
  simp [RateLimiter.record_failure, hws, h1, h2]

lemma record_failure_blocks (rl : RateLimiter) (t0 t : Nat)
    (hws : rl.window_start = some t0) (hwin : t - t0 ≤ ATTEMPT_WINDOW)
    (hcnt : MAX_FAILED_ATTEMPTS ≤ rl.failed_attempts + 1) :
    rl.record_failure t =
      { rl with failed_attempts := rl.failed_attempts + 1,
                blocked_until := some (t + RATE_LIMIT_DURATION) } := by
  have h1 : ¬ ATTEMPT_WINDOW < t - t0 := by omega
  simp [RateLimiter.record_failure, hws, h1, hcnt]

/-- **C4**: five failed `authenticate` calls within one 60-second window put
the limiter into a 30-second block: during the block every `authenticate`
call — the correct token included — returns `RateLimited` and leaves the
state unchanged; once 30 seconds have elapsed since the block was set, an
`authenticate` call with the correct token succeeds and returns the freshly
drawn session id. -/
theorem C4_rate_limit_lockout
    (st0 : SessionAuth) (h0 : st0.rate_limiter = RateLimiter.new)
    (w1 w2 w3 w4 w5 : List Nat)
    (hw1 : w1 ≠ st0.expected_token_hash) (hw2 : w2 ≠ st0.expected_token_hash)
    (hw3 : w3 ≠ st0.expected_token_hash) (hw4 : w4 ≠ st0.expected_token_hash)
    (hw5 : w5 ≠ st0.expected_token_hash)
    (id1 id2 id3 id4 id5 : Nat) (t1 t2 t3 t4 t5 : Nat)
    (h12 : t1 ≤ t2) (h23 : t2 ≤ t3) (h34 : t3 ≤ t4) (h45 : t4 ≤ t5)
    (hwin : t5 - t1 ≤ ATTEMPT_WINDOW)
    (st1 st2 st3 st4 st5 : SessionAuth)
    (e1 : st1 = (st0.authenticate w1 id1 t1).2)
    (e2 : st2 = (st1.authenticate w2 id2 t2).2)
    (e3 : st3 = (st2.authenticate w3 id3 t3).2)
    (e4 : st4 = (st3.authenticate w4 id4 t4).2)
    (e5 : st5 = (st4.authenticate w5 id5 t5).2) :
    (∀ (tokenHash : List Nat) (idn t : Nat), t5 ≤ t →
        t < t5 + RATE_LIMIT_DURATION →
        st5.authenticate tokenHash idn t = (.error .RateLimited, st5)) ∧
    (∀ (idn t : Nat), t5 + RATE_LIMIT_DURATION ≤ t →
        (st5.authenticate st0.expected_token_hash idn t).1 = .ok idn) := by
  have hc2 : (1 : Nat) + 1 < MAX_FAILED_ATTEMPTS := by decide
  have hc3 : (2 : Nat) + 1 < MAX_FAILED_ATTEMPTS := by decide
  have hc4 : (3 : Nat) + 1 < MAX_FAILED_ATTEMPTS := by decide
  have hc5 : MAX_FAILED_ATTEMPTS ≤ (4 : Nat) + 1 := by decide
  have hfail1 := auth_fail_step st0 w1 id1 t1 hw1 (by rw [h0]; rfl)
  have hrl1 : st1.rate_limiter = ⟨1, some t1, none⟩ := by
    rw [e1, hfail1]
    show st0.rate_limiter.record_failure t1 = _
    rw [h0, record_failure_fresh]
  have hexp1 : st1.expected_token_hash = st0.expected_token_hash := by
    rw [e1, hfail1]
  have hfail2 := auth_fail_step st1 w2 id2 t2 (by rw [hexp1]; exact hw2)
    (by rw [hrl1])
  have hrl2 : st2.rate_limiter = ⟨2, some t1, none⟩ := by
    rw [e2, hfail2]
    show st1.rate_limiter.record_failure t2 = _
    rw [hrl1, record_failure_in_window ⟨1, some t1, none⟩ t1 t2 rfl (by omega) hc2]
  have hexp2 : st2.expected_token_hash = st0.expected_token_hash := by
    rw [e2, hfail2]
    exact hexp1
  have hfail3 := auth_fail_step st2 w3 id3 t3 (by rw [hexp2]; exact hw3)
    (by rw [hrl2])
  have hrl3 : st3.rate_limiter = ⟨3, some t1, none⟩ := by
    rw [e3, hfail3]
    show st2.rate_limiter.record_failure t3 = _
    rw [hrl2, record_failure_in_window ⟨2, some t1, none⟩ t1 t3 rfl (by omega) hc3]
  have hexp3 : st3.expected_token_hash = st0.expected_token_hash := by
    rw [e3, hfail3]
    exact hexp2
  have hfail4 := auth_fail_step st3 w4 id4 t4 (by rw [hexp3]; exact hw4)
    (by rw [hrl3])
  have hrl4 : st4.rate_limiter = ⟨4, some t1, none⟩ := by
    rw [e4, hfail4]
    show st3.rate_limiter.record_failure t4 = _
    rw [hrl3, record_failure_in_window ⟨3, some t1, none⟩ t1 t4 rfl (by omega) hc4]
  have hexp4 : st4.expected_token_hash = st0.expected_token_hash := by
    rw [e4, hfail4]
    exact hexp3
  have hfail5 := auth_fail_step st4 w5 id5 t5 (by rw [hexp4]; exact hw5)
    (by rw [hrl4])
  have hrl5 : st5.rate_limiter = ⟨5, some t1, some (t5 + RATE_LIMIT_DURATION)⟩ := by
    rw [e5, hfail5]
    show st4.rate_limiter.record_failure t5 = _
    rw [hrl4, record_failure_blocks ⟨4, some t1, none⟩ t1 t5 rfl (by omega) hc5]
  have hexp5 : st5.expected_token_hash = st0.expected_token_hash := by
    rw [e5, hfail5]
    exact hexp4
  constructor
  · intro tokenHash idn t _ hlt
    have hlim : st5.rate_limiter.is_rate_limited t = true := by
      simp only [RateLimiter.is_rate_limited, hrl5, decide_eq_true_eq]
      exact hlt
    simp [SessionAuth.authenticate, hlim]
  · intro idn t hge
    have hlim : st5.rate_limiter.is_rate_limited t = false := by
      simp only [RateLimiter.is_rate_limited, hrl5, decide_eq_false_iff_not]
      exact not_lt.mpr hge
    simp [SessionAuth.authenticate, hlim, hexp5, ctc_self]

/-- Witness for C4 at concrete inputs: wrong digest `[0]`, expected digest
`[1]`, all five failures at time 0, a blocked call at time 10 and a
successful call at time 30. -/
theorem C4_rate_limit_lockout_witness :
    (let st0 := SessionAuth.new [1] 3600
     let st1 := (st0.authenticate [0] 1 0).2
     let st2 := (st1.authenticate [0] 2 0).2
     let st3 := (st2.authenticate [0] 3 0).2
     let st4 := (st3.authenticate [0] 4 0).2
     let st5 := (st4.authenticate [0] 5 0).2
     st5.authenticate [1] 7 10 = (.error .RateLimited, st5) ∧
       (st5.authenticate [1] 8 30).1 = .ok 8) := by
  have h := C4_rate_limit_lockout (SessionAuth.new [1] 3600) rfl
    [0] [0] [0] [0] [0] (by decide) (by decide) (by decide) (by decide) (by decide)
    1 2 3 4 5 0 0 0 0 0 (by decide) (by decide) (by decide) (by decide) (by decide)
    _ _ _ _ _ rfl rfl rfl rfl rfl
  exact ⟨h.1 [1] 7 10 (by decide) (by decide), h.2 8 30 (by decide)⟩

/-- Embedding of `SessionAuth::cleanup` at time `now`:
`retain(|_, s| s.created_at.elapsed() <= timeout)`. -/
def SessionAuth.cleanup (st : SessionAuth) (now : Nat) : SessionAuth :=
  { st with sessions := st.sessions.filter fun p => now - p.2.created_at ≤ st.session_timeout }

lemma find?_updateSession (sessions : List (Nat × Session)) (token : Nat)
    (s' : Session) (h : (sessions.find? fun p => p.1 = token).isSome) :
    ((updateSession sessions token s').find? fun p => p.1 = token) =
      some (token, s') := by
  induction sessions with
  | nil => simp at h
  | cons hd tl ih =>
    by_cases hh : hd.1 = token
    · simp [updateSession, List.find?_cons, hh]
    · simp only [updateSession, List.map_cons, if_neg hh] at *
      rw [List.find?_cons_of_neg _ (by simp [hh])] at h ⊢
      exact ih h

lemma find?_removeSession (sessions : List (Nat × Session)) (token : Nat) :
    ((removeSession sessions token).find? fun p => p.1 = token) = none := by
  rw [List.find?_eq_none]
  intro x hx
  have := (List.mem_filter.mp hx).2
  simpa using this

lemma exists_findSession_update (st : SessionAuth) (token : Nat) (s' : Session)
    (hsome : (st.sessions.find? fun p => p.1 = token).isSome) :
    ∃ s'', (SessionAuth.findSession
      { st with sessions := updateSession st.sessions token s' } token) = some s'' := by
  refine ⟨s', ?_⟩
  unfold SessionAuth.findSession
  simp only
  rw [find?_updateSession st.sessions token s' hsome]
  rfl

lemma find?_filter_keep {α : Type} (p q : α → Bool) (l : List α) (a : α)
    (hfind : l.find? p = some a) (hq : q a = true) :
    (l.filter q).find? p = some a := by
  induction l with
  | nil => simp at hfind
  | cons hd tl ih =>
    by_cases hp : p hd
    · rw [List.find?_cons_of_pos _ hp] at hfind
      obtain rfl : hd = a := by injection hfind
      rw [List.filter_cons, if_pos hq, List.find?_cons_of_pos _ hp]
    · rw [List.find?_cons_of_neg _ hp] at hfind
      rw [List.filter_cons]
      by_cases hqh : q hd
      · rw [if_pos hqh, List.find?_cons_of_neg _ hp]
        exact ih hfind
      · rw [if_neg hqh]
        exact ih hfind

/-- **C5 counterexample**: with `session_timeout = 10`, a session created at
time 0 and validated at times 4, 8, 12 — every inter-validation gap (4)
shorter than the timeout — is nevertheless removed with `SessionExpired` at
time 12, because `validate` expires by `created_at` age, not idle time. -/
theorem C5_idle_expiry_counterexample :
    (let st0 := ((SessionAuth.new [1] 10).authenticate [1] 42 0).2
     let r1 := st0.validate 42 4
     let r2 := r1.2.validate 42 8
     let r3 := r2.2.validate 42 12
     r1.1 = .ok () ∧ r2.1 = .ok () ∧
       r3.1 = .error .SessionExpired ∧ r3.2.findSession 42 = none) := by
  exact ⟨by rfl, by rfl, by rfl, by decide⟩

/-- **C5 (amended)**: a session is removed — by `validate` (with
`SessionExpired`) or by `cleanup` — exactly when its age `now − created_at`
exceeds the session timeout; while the age is within the timeout, `validate`
never returns `SessionExpired` and the session is retained by both `validate`
and `cleanup`, regardless of idle time. -/
theorem C5_expiry_by_creation_age (st : SessionAuth) (token : Nat) (s : Session)
    (now : Nat) (hfind : st.findSession token = some s) :
    (st.session_timeout < now - s.created_at →
        (st.validate token now).1 = .error .SessionExpired ∧
          (st.validate token now).2.findSession token = none) ∧
    (now - s.created_at ≤ st.session_timeout →
        (st.validate token now).1 ≠ .error .SessionExpired ∧
          (∃ s', (st.validate token now).2.findSession token = some s') ∧
          (st.cleanup now).findSession token = some s) := by
  have hsome : (st.sessions.find? fun p => p.1 = token).isSome := by
    unfold SessionAuth.findSession at hfind
    cases h : st.sessions.find? fun p => p.1 = token with
    | none => rw [h] at hfind; simp at hfind
    | some p => simp
  constructor
  · intro h
    have : st.validate token now =
        (.error .SessionExpired, { st with sessions := removeSession st.sessions token }) := by
      unfold SessionAuth.validate
      rw [hfind]
      simp only [if_pos h]
    rw [this]
    exact ⟨rfl, by simp [SessionAuth.findSession, find?_removeSession]⟩
  · intro h
    have hnlt : ¬ st.session_timeout < now - s.created_at := not_lt.mpr h
    have hupd : ∀ s', (updateSession st.sessions token s').find?
        (fun p => p.1 = token) = some (token, s') :=
      fun s' => find?_updateSession st.sessions token s' hsome
    refine ⟨?_, ?_, ?_⟩
    · unfold SessionAuth.validate
      rw [hfind]
      simp only [if_neg hnlt]
      split
      · simp
      · split <;> simp
    · unfold SessionAuth.validate
      rw [hfind]
      simp only [if_neg hnlt]
      split
      · exact exists_findSession_update st token _ hsome
      · split
        · exact exists_findSession_update st token _ hsome
        · exact exists_findSession_update st token _ hsome
    · unfold SessionAuth.cleanup SessionAuth.findSession
      obtain ⟨p, hp, hps⟩ : ∃ p, (st.sessions.find? fun q => q.1 = token) = some p
          ∧ p.2 = s := by
        unfold SessionAuth.findSession at hfind
        cases hfp : st.sessions.find? fun q => q.1 = token with
        | none => rw [hfp] at hfind; simp at hfind
        | some p =>
          rw [hfp] at hfind
          exact ⟨p, rfl, by simpa using hfind⟩
      have := find?_filter_keep (fun q => q.1 = token)
        (fun q => now - q.2.created_at ≤ st.session_timeout) st.sessions p hp
        (by simp [hps, h])
      rw [this]
      simpa using hps

/-- Witness for C5 (amended) at a concrete session: created at 0 with
timeout 10, expired at time 12, retained at time 8. -/
theorem C5_expiry_by_creation_age_witness :
    (let st0 := ((SessionAuth.new [1] 10).authenticate [1] 42 0).2
     (st0.validate 42 12).1 = .error .SessionExpired ∧
       (st0.validate 42 12).2.findSession 42 = none ∧
       (st0.validate 42 8).1 ≠ .error .SessionExpired) := by
  have h12 := C5_expiry_by_creation_age
    ((SessionAuth.new [1] 10).authenticate [1] 42 0).2 42
    { created_at := 0, last_activity := 0, connection_count := 0,
      request_count := 0, request_window_start := some 0 } 12 (by decide)
  have h8 := C5_expiry_by_creation_age
    ((SessionAuth.new [1] 10).authenticate [1] 42 0).2 42
    { created_at := 0, last_activity := 0, connection_count := 0,
      request_count := 0, request_window_start := some 0 } 8 (by decide)
  exact ⟨(h12.1 (by decide)).1, (h12.1 (by decide)).2, (h8.2 (by decide)).1⟩

/-! ## `scheduler/thread_pool.rs` : priority insertion

The task closure payload plays no role in queue ordering and is omitted
from `PrioritizedTask`.  Mutexes are uncontended in a sequential execution,
so `lock_or_recover` is the identity. -/

/-- `TaskPriority` from `thread_pool_types.rs`; the derived Rust `Ord` is
the discriminant order `Low = 0 < Normal = 1 < High = 2 < Critical = 3`,
embedded via `toNat`. -/
inductive TaskPriority where
  | Low
  | Normal
  | High
  | Critical
  deriving DecidableEq, Repr

/-- Discriminant of `TaskPriority` (the value assigned in the source). -/
def TaskPriority.toNat : TaskPriority → Nat
  | .Low => 0
  | .Normal => 1
  | .High => 2
  | .Critical => 3

lemma TaskPriority.toNat_inj :
    ∀ a b : TaskPriority, a.toNat = b.toNat → a = b := by
  intro a b h
  cases a <;> cases b <;> simp_all [TaskPriority.toNat]

/-- `PrioritizedTask` from `thread_pool_types.rs` (closure payload omitted). -/
structure PrioritizedTask where
  priority : TaskPriority
  sequence : Nat
  deriving DecidableEq, Repr

/-- `ThreadPoolError` from `thread_pool_types.rs`. -/
inductive ThreadPoolError where
  | PoolShutdown
  | QueueFull
  | ThreadSpawnFailed
  deriving DecidableEq, Repr

/-- The insertion predicate from `submit_with_priority`:
`t.priority < prioritized.priority || (t.priority == prioritized.priority
&& t.sequence > prioritized.sequence)`. -/
def insertBefore (new t : PrioritizedTask) : Bool :=
  decide (t.priority.toNat < new.priority.toNat) ||
    (decide (t.priority = new.priority) && decide (new.sequence < t.sequence))

/-- Rust's `Iterator::position`: index of the first element satisfying the
predicate. -/
def position (p : PrioritizedTask → Bool) : List PrioritizedTask → Option Nat
  | [] => none
  | t :: ts => if p t then some 0 else (position p ts).map (· + 1)

/-- `q.iter().position(..).unwrap_or(q.len())` followed by `q.insert(pos, _)`
from `submit_with_priority`. -/
def insertTask (q : List PrioritizedTask) (new : PrioritizedTask) :
    List PrioritizedTask :=
  let pos := (position (insertBefore new) q).getD q.length
  q.take pos ++ new :: q.drop pos

/-- State of the pool relevant to submission: per-worker deques, the global
overflow deque, and the monotonic `task_sequence` counter. -/
structure ThreadPoolState where
  worker_queues : List (List PrioritizedTask)
  global_queue : List PrioritizedTask
  task_sequence : Nat
  queue_size : Nat
  shutdown : Bool
  deriving DecidableEq, Repr

/-- `find_least_loaded_worker`: `min_by_key` over queue lengths; Rust's
`min_by_key` returns the first of several equally minimal elements. -/
def find_least_loaded_worker (qs : List (List PrioritizedTask)) : Option Nat :=
  (List.range qs.length).foldl
    (fun best i =>
      match best with
      | none => some i
      | some b => if (qs.getD i []).length < (qs.getD b []).length then some i else best)
    none

/-- Embedding of `ThreadPool::submit_with_priority` (the condvar
notification affects scheduling only, not the queues). -/
def submit_with_priority (st : ThreadPoolState) (priority : TaskPriority) :
    Except ThreadPoolError Unit × ThreadPoolState :=
  if st.shutdown then (.error .PoolShutdown, st)
  else
    let prioritized : PrioritizedTask := ⟨priority, st.task_sequence⟩
    let st' := { st with task_sequence := st.task_sequence + 1 }
    match find_least_loaded_worker st'.worker_queues with
    | some i =>
      let q := st'.worker_queues.getD i []
      if st'.queue_size ≤ q.length then (.error .QueueFull, st')
      else
        (.ok (), { st' with worker_queues := st'.worker_queues.set i (insertTask q prioritized) })
    | none =>
      if st'.queue_size ≤ st'.global_queue.length then (.error .QueueFull, st')
      else (.ok (), { st' with global_queue := insertTask st'.global_queue prioritized })

/-- `a` is correctly ahead of `b`: strictly higher priority, or equal
priority and earlier (smaller) submission sequence number. -/
def aheadOf (a b : PrioritizedTask) : Prop :=
  b.priority.toNat < a.priority.toNat ∨
    (a.priority = b.priority ∧ a.sequence < b.sequence)

/-- A deque is ordered: priority order with FIFO within equal priority. -/
def orderedQueue (q : List PrioritizedTask) : Prop := q.Pairwise aheadOf

/-- The whole-pool invariant: every deque is ordered and every stored
sequence number is below the `task_sequence` counter. -/
def PoolInvariant (st : ThreadPoolState) : Prop :=
  (∀ q ∈ st.worker_queues, orderedQueue q ∧ ∀ t ∈ q, t.sequence < st.task_sequence) ∧
    orderedQueue st.global_queue ∧
    ∀ t ∈ st.global_queue, t.sequence < st.task_sequence

/-- Recursive form of the positional insertion, for induction. -/
def insertRec (new : PrioritizedTask) : List PrioritizedTask → List PrioritizedTask
  | [] => [new]
  | t :: ts => if insertBefore new t then new :: t :: ts else t :: insertRec new ts

lemma insertTask_eq_insertRec (new : PrioritizedTask) :
    ∀ q : List PrioritizedTask, insertTask q new = insertRec new q := by
  intro q
  induction q with
  | nil => rfl
  | cons t ts ih =>
    unfold insertTask insertRec position
    by_cases h : insertBefore new t
    · simp [h]
    · rw [if_neg h, if_neg h]
      unfold insertTask at ih
      cases hf : position (insertBefore new) ts with
      | none =>
        rw [hf] at ih
        simp only [Option.map_none, Option.getD_none, List.length_cons,
          List.take_succ_cons, List.drop_succ_cons, List.cons_append,
          List.cons.injEq, true_and]
        simpa [Option.getD_none] using ih
      | some p =>
        rw [hf] at ih
        simp only [Option.map_some, Option.getD_some, List.take_succ_cons,
          List.drop_succ_cons, List.cons_append, List.cons.injEq, true_and]
        simpa [Option.getD_some] using ih

lemma mem_insertRec (new x : PrioritizedTask) :
    ∀ q : List PrioritizedTask, x ∈ insertRec new q ↔ x = new ∨ x ∈ q := by
  intro q
  induction q with
  | nil => simp [insertRec]
  | cons t ts ih =>
    unfold insertRec
    by_cases h : insertBefore new t
    · rw [if_pos h]
      simp
    · rw [if_neg h]
      simp only [List.mem_cons, ih]
      tauto

lemma aheadOf_of_insertBefore {new t : PrioritizedTask}
    (h : insertBefore new t = true) (hfresh : t.sequence < new.sequence) :
    aheadOf new t := by
  unfold insertBefore at h
  simp only [Bool.or_eq_true, Bool.and_eq_true, decide_eq_true_eq] at h
  rcases h with h | ⟨_, h2⟩
  · exact Or.inl h
  · omega

lemma aheadOf_of_not_insertBefore {new t : PrioritizedTask}
    (h : ¬ insertBefore new t = true) (hfresh : t.sequence < new.sequence) :
    aheadOf t new := by
  unfold insertBefore at h
  simp only [Bool.or_eq_true, Bool.and_eq_true, decide_eq_true_eq, not_or,
    not_and] at h
  rcases Nat.lt_trichotomy t.priority.toNat new.priority.toNat with hlt | heq | hgt
  · exact absurd hlt h.1
  · exact Or.inr ⟨TaskPriority.toNat_inj _ _ heq, hfresh⟩
  · exact Or.inl hgt

lemma aheadOf_trans {a b c : PrioritizedTask}
    (h1 : aheadOf a b) (h2 : aheadOf b c) : aheadOf a c := by
  rcases h1 with h1 | ⟨e1, s1⟩ <;> rcases h2 with h2 | ⟨e2, s2⟩
  · exact Or.inl (by omega)
  · exact Or.inl (by rw [← e2]; exact h1)
  · exact Or.inl (by rw [e1]; exact h2)
  · exact Or.inr ⟨by rw [e1, e2], by omega⟩

lemma insertRec_ordered (new : PrioritizedTask) :
    ∀ q : List PrioritizedTask, orderedQueue q →
      (∀ t ∈ q, t.sequence < new.sequence) → orderedQueue (insertRec new q) := by
  intro q
  induction q with
  | nil => intro _ _; simp [insertRec, orderedQueue]
  | cons t ts ih =>
    intro hord hfresh
    have hordts : orderedQueue ts := (List.pairwise_cons.mp hord).2
    have hheadrel : ∀ b ∈ ts, aheadOf t b := (List.pairwise_cons.mp hord).1
    unfold insertRec
    by_cases h : insertBefore new t
    · rw [if_pos h]
      have hnewt : aheadOf new t :=
        aheadOf_of_insertBefore h (hfresh t (by simp))
      refine List.pairwise_cons.mpr ⟨?_, hord⟩
      intro b hb
      rcases List.mem_cons.mp hb with rfl | hbts
      · exact hnewt
      · exact aheadOf_trans hnewt (hheadrel b hbts)
    · rw [if_neg h]
      refine List.pairwise_cons.mpr ⟨?_, ih hordts (fun x hx => hfresh x (by simp [hx]))⟩
      intro b hb
      rcases (mem_insertRec new b ts).mp hb with rfl | hbts
      · exact aheadOf_of_not_insertBefore h (hfresh t (by simp))
      · exact hheadrel b hbts

lemma insertTask_ordered (q : List PrioritizedTask) (new : PrioritizedTask)
    (hord : orderedQueue q) (hfresh : ∀ t ∈ q, t.sequence < new.sequence) :
    orderedQueue (insertTask q new) := by
  rw [insertTask_eq_insertRec]
  exact insertRec_ordered new q hord hfresh

lemma mem_insertTask (q : List PrioritizedTask) (new x : PrioritizedTask) :
    x ∈ insertTask q new ↔ x = new ∨ x ∈ q := by
  rw [insertTask_eq_insertRec]
  exact mem_insertRec new x q

/-- **C9**: `submit_with_priority` preserves the deque-ordering invariant —
in every deque, strictly higher-priority tasks sit ahead of lower-priority
tasks, and equal-priority tasks sit in FIFO order by ascending submission
sequence number (sequence numbers being below the monotonic counter). -/
theorem C9_submit_preserves_order (st : ThreadPoolState)
    (priority : TaskPriority) (hinv : PoolInvariant st) :
    PoolInvariant (submit_with_priority st priority).2 := by
  obtain ⟨hw, hg, hgf⟩ := hinv
  unfold submit_with_priority
  by_cases hsd : st.shutdown
  · simp only [if_pos hsd]
    exact ⟨hw, hg, hgf⟩
  · simp only [if_neg hsd]
    have hmono : ∀ (q : List PrioritizedTask), (∀ t ∈ q, t.sequence < st.task_sequence) →
        ∀ t ∈ q, t.sequence < st.task_sequence + 1 :=
      fun q hq t ht => Nat.lt_succ_of_lt (hq t ht)
    cases hfind : find_least_loaded_worker st.worker_queues with
    | some i =>
      simp only []
      by_cases hfull : st.queue_size ≤ (st.worker_queues.getD i []).length
      · simp only [hfind, if_pos hfull]
        exact ⟨fun q hq => ⟨(hw q hq).1, hmono q (hw q hq).2⟩, hg, hmono _ hgf⟩
      · simp only [hfind, if_neg hfull]
        refine ⟨?_, hg, hmono _ hgf⟩
        intro q hq
        rcases List.mem_or_eq_of_mem_set hq with hmem | rfl
        · exact ⟨(hw q hmem).1, hmono q (hw q hmem).2⟩
        · have hbase : orderedQueue (st.worker_queues.getD i []) ∧
              ∀ t ∈ st.worker_queues.getD i [], t.sequence < st.task_sequence := by
            by_cases hi : i < st.worker_queues.length
            · have : st.worker_queues.getD i [] ∈ st.worker_queues := by
                rw [List.getD_eq_getElem _ _ hi]
                exact List.getElem_mem _
              exact ⟨(hw _ this).1, (hw _ this).2⟩
            · rw [List.getD_eq_default _ _ (by omega)]
              exact ⟨List.Pairwise.nil, by simp⟩
          constructor
          · exact insertTask_ordered _ _ hbase.1 (fun t ht => hbase.2 t ht)
          · intro t ht
            rcases (mem_insertTask _ _ t).mp ht with rfl | hmem
            · exact Nat.lt_succ_self _
            · exact Nat.lt_succ_of_lt (hbase.2 t hmem)
    | none =>
      simp only []
      by_cases hfull : st.queue_size ≤ st.global_queue.length
      · simp only [hfind, if_pos hfull]
        exact ⟨fun q hq => ⟨(hw q hq).1, hmono q (hw q hq).2⟩, hg, hmono _ hgf⟩
      · simp only [hfind, if_neg hfull]
        refine ⟨fun q hq => ⟨(hw q hq).1, hmono q (hw q hq).2⟩, ?_, ?_⟩
        · exact insertTask_ordered _ _ hg (fun t ht => hgf t ht)
        · intro t ht
          rcases (mem_insertTask _ _ t).mp ht with rfl | hmem
          · exact Nat.lt_succ_self _
          · exact Nat.lt_succ_of_lt (hgf t hmem)

/-- Witness for C9 at a concrete pool: one worker holding a Normal task
(sequence 0), submitting a High task (sequence 1) keeps the deque ordered
(the High task is inserted ahead). -/
theorem C9_submit_preserves_order_witness :
    PoolInvariant (submit_with_priority
      ⟨[[⟨.Normal, 0⟩]], [], 1, 256, false⟩ .High).2 :=
  C9_submit_preserves_order ⟨[[⟨.Normal, 0⟩]], [], 1, 256, false⟩ .High
    ⟨by intro q hq
        simp only [List.mem_singleton] at hq
        subst hq
        exact ⟨List.pairwise_singleton _ _, by simp⟩,
     List.Pairwise.nil, by simp⟩

/-! ## `memory/kv_cache_core.rs` + `memory/kv_cache_ops.rs` : paged KV cache

The K/V float payloads play no role in page accounting and are not
modelled; `Instant` is a `Nat` time stamp as before.  The `sequences`
`RwLock` is tracked explicitly: `append_kv` holds its write guard for the
whole call, and `free_sequence` acquires the same write lock, so the model
threads a `held` flag and reports `deadlock` on a re-entrant write
acquisition (`std::sync::RwLock` is not re-entrant: the thread blocks
forever or panics). -/

/-- Modelled from the spec: `PAGE_TOKENS` lives in `memory/paged.rs`, which
is not among the sources; §4.G fixes the page token capacity `P` at 16
(scenario E and the tests use `P = 16`). -/
def PAGE_TOKENS : Nat := 16

/-- Modelled from the spec: the `PageTable` of `memory/paged.rs` (not among
the sources).  Per §3/§4.G it holds a pool of up to `max_pages` pages with
free pages tracked on a list; `allocate` hands out a free page (recording
the position that asked for it) and `free` returns pages to the free list. -/
structure PageTable where
  free_pages : List Nat
  pos_map : List (Nat × Nat)
  deriving DecidableEq, Repr

/-- Modelled from the spec: fresh table with `max_pages` free pages. -/
def PageTable.new (max_pages : Nat) : PageTable :=
  ⟨List.range max_pages, []⟩

/-- Modelled from the spec: `PageTable::allocate(seq_pos)` pops a free page
if one exists. -/
def PageTable.allocate (pt : PageTable) (seq_pos : Nat) : Option Nat × PageTable :=
  match pt.free_pages with
  | [] => (none, pt)
  | p :: rest => (some p, ⟨rest, (seq_pos, p) :: pt.pos_map⟩)

/-- Modelled from the spec: `PageTable::free(&ids)` returns pages to the
free list. -/
def PageTable.free_pages_back (pt : PageTable) (ids : List Nat) : PageTable :=
  ⟨pt.free_pages ++ ids, pt.pos_map.filter fun q => q.2 ∉ ids⟩

/-- `SlidingWindowConfig` from `kv_cache_config.rs`. -/
structure SlidingWindowConfig where
  window_size : Nat
  overlap_tokens : Nat
  deriving DecidableEq, Repr

/-- `EvictionPolicy` from `kv_cache_config.rs`. -/
inductive EvictionPolicy where
  | Lru
  | Fifo
  | Lfu
  deriving DecidableEq, Repr

/-- `KvCacheConfig` from `kv_cache_config.rs`. -/
structure KvCacheConfig where
  hidden_dim : Nat
  max_pages : Nat
  max_seq_len : Nat
  num_heads : Nat
  head_dim : Nat
  enable_quantization : Bool
  enable_paged : Bool
  eviction_policy : EvictionPolicy
  sliding_window : Option SlidingWindowConfig
  deriving DecidableEq, Repr

/-- `KvCacheError` from `kv_cache_config.rs` (string payload dropped). -/
inductive KvCacheError where
  | SequenceNotFound (id : Nat)
  | PositionOutOfBounds (pos seq_len : Nat)
  | PageNotFound
  | MemoryExhausted
  | QuantizationError
  deriving DecidableEq, Repr

/-- `SequenceEntry` from `kv_cache_core.rs`.  The optional Q8 store (from
`memory/kv_quant.rs`, not among the sources) is a shadow of the K/V rows
that owns no pages (§3: pages are owned exclusively by the page table), so
only its presence is tracked. -/
structure SequenceEntry where
  id : Nat
  page_ids : List Nat
  seq_len : Nat
  last_access : Nat
  access_count : Nat
  quant_store : Option Unit
  deriving DecidableEq, Repr

/-- The `KvCacheManager` state: config, page table, sequence map
(association list), LRU access order, and the monotonic id counter. -/
structure KvState where
  config : KvCacheConfig
  page_table : PageTable
  sequences : List (Nat × SequenceEntry)
  access_order : List Nat
  next_seq_id : Nat
  deriving DecidableEq, Repr

/-- `KvCacheManager::new`. -/
def KvState.new (config : KvCacheConfig) : KvState :=
  ⟨config, PageTable.new config.max_pages, [], [], 1⟩

/-- Outcome of a cache operation: success or error with the poststate, or a
re-entrant lock acquisition, on which the thread never returns. -/
inductive KvOutcome (α : Type) where
  | ok (a : α) (st : KvState)
  | err (e : KvCacheError) (st : KvState)
  | deadlock
  deriving DecidableEq, Repr

/-- `sequences.get(&seq_id)` on the association list. -/
def lookupSeq (sequences : List (Nat × SequenceEntry)) (seq_id : Nat) :
    Option SequenceEntry :=
  (sequences.find? fun p => p.1 = seq_id).map (·.2)

/-- In-place update of the entry stored under `seq_id`. -/
def updateSeq (sequences : List (Nat × SequenceEntry)) (seq_id : Nat)
    (e : SequenceEntry) : List (Nat × SequenceEntry) :=
  sequences.map fun p => if p.1 = seq_id then (seq_id, e) else p

/-- `KvCacheManager::allocate_sequence` at time `now`. -/
def allocate_sequence (st : KvState) (now : Nat) : Nat × KvState :=
  let id := st.next_seq_id
  let quant_store : Option Unit :=
    if st.config.enable_quantization then some () else none
  let entry : SequenceEntry :=
    ⟨id, [], 0, now, 0, quant_store⟩
  (id, { st with
    next_seq_id := id + 1
    sequences := st.sequences ++ [(id, entry)]
    access_order := st.access_order ++ [id] })

/-- `KvCacheManager::free_sequence`.  `held` records whether the caller
already holds the `sequences` write guard; `write_or_recover(&self.sequences)`
then self-deadlocks. -/
def free_sequence (held : Bool) (st : KvState) (seq_id : Nat) : KvOutcome Unit :=
  if held then .deadlock
  else
    match lookupSeq st.sequences seq_id with
    | none => .err (.SequenceNotFound seq_id) st
    | some entry =>
      .ok () { st with
        sequences := st.sequences.filter fun p => p.1 ≠ seq_id
        page_table := st.page_table.free_pages_back entry.page_ids
        access_order := st.access_order.filter fun i => i ≠ seq_id }

/-- `KvCacheManager::evict_lru`: pop the front of `access_order` and free
that sequence. -/
def evict_lru (held : Bool) (st : KvState) : KvOutcome Unit :=
  match st.access_order with
  | [] => .ok () st
  | victim :: rest => free_sequence held { st with access_order := rest } victim

/-- `KvCacheManager::allocate_page_for` (the `page_table` guard is dropped
before `evict_lru`, exactly as in the source; the `sequences` guard is
whatever the caller holds). -/
def allocate_page_for (held : Bool) (st : KvState) (entry : SequenceEntry)
    (seq_pos : Nat) : KvOutcome SequenceEntry :=
  match st.page_table.allocate seq_pos with
  | (some pid, pt') =>
    .ok { entry with page_ids := entry.page_ids ++ [pid] }
      { st with page_table := pt' }
  | (none, _) =>
    match evict_lru held st with
    | .deadlock => .deadlock
    | .err e st' => .err e st'
    | .ok _ st' =>
      match st'.page_table.allocate seq_pos with
      | (some pid, pt') =>
        .ok { entry with page_ids := entry.page_ids ++ [pid] }
          { st' with page_table := pt' }
      | (none, _) => .err .MemoryExhausted st'

/-- `KvCacheManager::append_kv` at time `now`.  The `sequences` write guard
is held for the whole body, so inner calls run with `held = true`.  The K/V
write (`write_to_page`) and the Q8 shadow append (`write_to_quant_store`)
touch no page accounting and no sequence bookkeeping other than shown. -/
def append_kv (st : KvState) (seq_id : Nat) (now : Nat) : KvOutcome Unit :=
  match lookupSeq st.sequences seq_id with
  | none => .err (.SequenceNotFound seq_id) st
  | some entry0 =>
    let entry :=
      { entry0 with
        last_access := now
        access_count := entry0.access_count + 1 }
    let seq_pos := entry.seq_len
    let slot := seq_pos % PAGE_TOKENS
    if slot = 0 ∨ entry.page_ids = [] then
      match allocate_page_for true { st with
          sequences := updateSeq st.sequences seq_id entry } entry seq_pos with
      | .deadlock => .deadlock
      | .err e st' => .err e st'
      | .ok entry' st' =>
        let entry'' := { entry' with seq_len := entry'.seq_len + 1 }
        .ok () { st' with sequences := updateSeq st'.sequences seq_id entry'' }
    else
      let entry'' := { entry with seq_len := entry.seq_len + 1 }
      .ok () { st with sequences := updateSeq st.sequences seq_id entry'' }

/-- `KvCacheManager::evict_pages_before`. -/
def evict_pages_before (st : KvState) (seq_id : Nat) (cutoff_token : Nat) :
    Nat × KvState :=
  match lookupSeq st.sequences seq_id with
  | none => (0, st)
  | some entry =>
    let cutoff_page := cutoff_token / PAGE_TOKENS
    if cutoff_page = 0 then (0, st)
    else
      let evict_count := min cutoff_page entry.page_ids.length
      let evicted := entry.page_ids.take evict_count
      let entry' := { entry with page_ids := entry.page_ids.drop evict_count }
      (evict_count, { st with
        sequences := updateSeq st.sequences seq_id entry'
        page_table := st.page_table.free_pages_back evicted })

/-- `KvCacheManager::evict_beyond_window` (`saturating_add` /
`saturating_sub` are `Nat` addition / truncated subtraction). -/
def evict_beyond_window (st : KvState) (seq_id : Nat) (current_pos : Nat) :
    Nat × KvState :=
  match st.config.sliding_window with
  | none => (0, st)
  | some sw =>
    let keep := sw.window_size + sw.overlap_tokens
    let cutoff := current_pos - keep
    if cutoff = 0 then (0, st)
    else evict_pages_before st seq_id cutoff

/-- `KvCacheManager::sequence_page_count`. -/
def sequence_page_count (st : KvState) (seq_id : Nat) : Nat :=
  ((lookupSeq st.sequences seq_id).map (·.page_ids.length)).getD 0

/-- `KvCacheManager::has_sequence`. -/
def has_sequence (st : KvState) (seq_id : Nat) : Bool :=
  (lookupSeq st.sequences seq_id).isSome

/-- `KvCacheManager::seq_len` (`Ok` payload only). -/
def kv_seq_len (st : KvState) (seq_id : Nat) : Option Nat :=
  (lookupSeq st.sequences seq_id).map (·.seq_len)

/-- `n` consecutive `append_kv` calls, stopping at the first non-`Ok`. -/
def appendN (seq_id now : Nat) : Nat → KvState → KvOutcome Unit
  | 0, st => .ok () st
  | n + 1, st =>
    match append_kv st seq_id now with
    | .ok _ st' => appendN seq_id now n st'
    | other => other

/-- `true` iff the outcome is `Ok`. -/
def KvOutcome.isOk : KvOutcome Unit → Bool
  | .ok _ _ => true
  | _ => false

/-- The poststate of an outcome (default for a deadlocked call, which has
no poststate). -/
def KvOutcome.stateD : KvOutcome Unit → KvState → KvState
  | .ok _ st, _ => st
  | .err _ st, _ => st
  | .deadlock, d => d

lemma find?_update_assoc (l : List (Nat × SequenceEntry)) (k : Nat)
    (v : SequenceEntry) (h : (l.find? fun p => p.1 = k).isSome) :
    ((updateSeq l k v).find? fun p => p.1 = k) = some (k, v) := by
  induction l with
  | nil => simp at h
  | cons hd tl ih =>
    by_cases hh : hd.1 = k
    · simp [updateSeq, List.find?_cons, hh]
    · simp only [updateSeq, List.map_cons, if_neg hh] at *
      rw [List.find?_cons_of_neg _ (by simp [hh])] at h ⊢
      exact ih h

lemma sequence_page_count_update (st : KvState) (seq_id : Nat)
    (e' : SequenceEntry) (pt' : PageTable)
    (hsome : (st.sequences.find? fun p => p.1 = seq_id).isSome) :
    sequence_page_count
      { st with sequences := updateSeq st.sequences seq_id e', page_table := pt' }
      seq_id = e'.page_ids.length := by
  unfold sequence_page_count lookupSeq
  simp only []
  rw [find?_update_assoc st.sequences seq_id _ hsome]
  rfl

/-- **C2 counterexample**: sliding window `W = 16`, `O = 0`, `P = 16`, so
the claimed bound is `ceil(16/16) + 1 = 2` pages; a sequence holding 33
tokens (3 pages) on which `evict_beyond_window(seq, 0)` is called evicts
nothing and retains 3 pages — the bound only holds when `pos` is the
sequence's current position, not for arbitrary `pos`. -/
theorem C2_eviction_bound_counterexample :
    (let st1 := (allocate_sequence
        (KvState.new ⟨64, 64, 4096, 32, 128, false, true, .Lru, some ⟨16, 0⟩⟩) 0).2
     let r := appendN 1 0 33 st1
     let st2 := r.stateD st1
     r.isOk = true ∧
       (evict_beyond_window st2 1 0).1 = 0 ∧
       sequence_page_count (evict_beyond_window st2 1 0).2 1 = 3 ∧
       ¬ sequence_page_count (evict_beyond_window st2 1 0).2 1 ≤
           (16 + 0 + PAGE_TOKENS - 1) / PAGE_TOKENS + 1) := by
  exact ⟨by decide, by decide, by decide, by decide⟩

/-- **C2 (amended)**: for a sequence satisfying the data-model invariant
`page_ids.len() = ceil(seq_len / P)`, after `evict_beyond_window(seq, pos)`
called with `pos` at least the sequence's current length (in particular at
the current position), the retained page count is at most
`ceil((W + O) / P) + 1`. -/
theorem C2_eviction_bound_amended (st : KvState) (seq_id : Nat)
    (entry : SequenceEntry) (sw : SlidingWindowConfig) (pos : Nat)
    (hsw : st.config.sliding_window = some sw)
    (hfind : lookupSeq st.sequences seq_id = some entry)
    (hinv : entry.page_ids.length = (entry.seq_len + PAGE_TOKENS - 1) / PAGE_TOKENS)
    (hpos : entry.seq_len ≤ pos) :
    sequence_page_count (evict_beyond_window st seq_id pos).2 seq_id ≤
      (sw.window_size + sw.overlap_tokens + PAGE_TOKENS - 1) / PAGE_TOKENS + 1 := by
  have hcount : sequence_page_count st seq_id = entry.page_ids.length := by
    simp [sequence_page_count, hfind]
  have hsome : (st.sequences.find? fun p => p.1 = seq_id).isSome := by
    unfold lookupSeq at hfind
    cases h : st.sequences.find? fun p => p.1 = seq_id with
    | none => rw [h] at hfind; simp at hfind
    | some p => simp
  unfold evict_beyond_window
  rw [hsw]
  simp only []
  set keep := sw.window_size + sw.overlap_tokens with hkeep
  by_cases hcut : pos - keep = 0
  · rw [if_pos hcut]
    rw [hcount, hinv]
    simp only [PAGE_TOKENS] at *
    omega
  · rw [if_neg hcut]
    unfold evict_pages_before
    rw [hfind]
    simp only []
    by_cases hcp : (pos - keep) / PAGE_TOKENS = 0
    · rw [if_pos hcp]
      rw [hcount, hinv]
      simp only [PAGE_TOKENS] at *
      omega
    · rw [if_neg hcp]
      rw [sequence_page_count_update st seq_id _ _ hsome, List.length_drop, hinv]
      simp only [PAGE_TOKENS] at *
      omega

/-- Witness for C2 (amended): the 33-token sequence above, evicted at its
current position 33, retains 2 ≤ 2 pages. -/
theorem C2_eviction_bound_amended_witness :
    sequence_page_count
      (evict_beyond_window
        ((appendN 1 0 33 (allocate_sequence
          (KvState.new ⟨64, 64, 4096, 32, 128, false, true, .Lru, some ⟨16, 0⟩⟩) 0).2).stateD
          (KvState.new ⟨64, 64, 4096, 32, 128, false, true, .Lru, some ⟨16, 0⟩⟩))
        1 33).2 1 ≤
      ((16 : Nat) + 0 + PAGE_TOKENS - 1) / PAGE_TOKENS + 1 :=
  C2_eviction_bound_amended _ 1 ⟨1, [0, 1, 2], 33, 0, 33, none⟩ ⟨16, 0⟩ 33
    (by decide) (by decide) (by decide) (by decide)

/-- **C6**: in the scenario of spec scenario E (`max_pages = 2`, `P = 16`:
32 tokens appended to sequence A, sequence B allocated, one token appended
to B), the code does not evict A and admit B's token — the append
self-deadlocks: `append_kv` holds the `sequences` write lock and the
eviction path (`evict_lru` → `free_sequence`) re-acquires it. -/
theorem C6_append_eviction_deadlock :
    (let cfg : KvCacheConfig := ⟨128, 2, 4096, 32, 128, true, true, .Lru, none⟩
     let st1 := (allocate_sequence (KvState.new cfg) 0).2
     let r := appendN 1 0 32 st1
     let st2 := r.stateD st1
     let st3 := (allocate_sequence st2 0).2
     r.isOk = true ∧
       (allocate_sequence st2 0).1 = 2 ∧
       sequence_page_count st2 1 = 2 ∧
       append_kv st3 2 0 = .deadlock) := by
  exact ⟨by decide, by decide, by decide, by decide⟩

/-! ## `security/pii_patterns.rs` + `security/pii_detector.rs` : PII detection

The `regex` crate (external) is embedded as a small backtracking matcher
with the crate's leftmost-first (preference-order) semantics: greedy
quantifiers prefer the longest repetition, alternations prefer the left
branch, `find_iter` yields non-overlapping matches scanning left to right.
The pattern strings of `build_patterns` are transliterated one element at a
time into the `RE` syntax below.  Positions are character offsets; on the
ASCII inputs these claims quantify over they coincide with the source's
byte offsets, and the crate's Unicode-aware `\d`, `\w`, `\s`, `\b` agree
with their ASCII readings used here. -/

/-- ASCII `\w` (word character), used by `\b`. -/
def isWordChar (c : Char) : Bool :=
  ('a' ≤ c && c ≤ 'z') || ('A' ≤ c && c ≤ 'Z') || ('0' ≤ c && c ≤ '9') || c = '_'

/-- Word-character test for the character before the current position. -/
def isWordOpt : Option Char → Bool
  | none => false
  | some c => isWordChar c

/-- Word-character test for the character at the current position. -/
def isWordHead : List Char → Bool
  | [] => false
  | c :: _ => isWordChar c

/-- Regular-expression syntax actually used by `build_patterns`: character
classes with counted greedy repetition (`x`, `x?`, `x*`, `x+`, `x{n}`,
`x{m,n}`, `x{m,}` on one-character classes), literals, `\b`, concatenation,
alternation, and greedy optional groups. -/
inductive RE where
  | eps
  | cls (p : Char → Bool) (lo : Nat) (hi : Option Nat)
  | lit (cs : List Char)
  | bnd
  | seq (a b : RE)
  | alt (a b : RE)
  | opt (a : RE)

/-- Length of the longest prefix of `s` of class-`p` characters, capped at
`hi` (`none` = unbounded). -/
def runLen (p : Char → Bool) : List Char → Option Nat → Nat
  | [], _ => 0
  | c :: rest, hi =>
    if hi = some 0 then 0
    else if p c then runLen p rest (hi.map (· - 1)) + 1
    else 0

/-- The character just before position `j` of `s` (`prev` for `j = 0`). -/
def prevAfter (prev : Option Char) (s : List Char) (j : Nat) : Option Char :=
  if j = 0 then prev else s[j - 1]?

/-- Backtracking descent of a greedy repetition: try `j`, then `j - 1`,
…, down to `lo`. -/
def descend {α : Type} (t : Nat → Option α) (lo : Nat) : Nat → Option α
  | 0 => if lo = 0 then t 0 else none
  | j + 1 =>
    if j + 1 < lo then none
    else
      match t (j + 1) with
      | some r => some r
      | none => descend t lo j

/-- Match result: the character just before the rest, and the rest. -/
abbrev MRes := Option (Option Char × List Char)

/-- Backtracking matcher in continuation style; preference order is the
regex crate's leftmost-first order. -/
def mtch : RE → Option Char → List Char → (Option Char → List Char → MRes) → MRes
  | .eps, prev, s, k => k prev s
  | .cls p lo hi, prev, s, k =>
    descend (fun j => k (prevAfter prev s j) (s.drop j)) lo (runLen p s hi)
  | .lit cs, prev, s, k =>
    if s.take cs.length = cs then
      k (match cs.getLast? with | some c => some c | none => prev) (s.drop cs.length)
    else none
  | .bnd, prev, s, k => if isWordOpt prev != isWordHead s then k prev s else none
  | .seq a b, prev, s, k => mtch a prev s fun p' s' => mtch b p' s' k
  | .alt a b, prev, s, k =>
    match mtch a prev s k with
    | some r => some r
    | none => mtch b prev s k
  | .opt a, prev, s, k =>
    match mtch a prev s k with
    | some r => some r
    | none => k prev s

/-- Attempt a match anchored at the current position. -/
def findAt (re : RE) (prev : Option Char) (s : List Char) : MRes :=
  mtch re prev s fun p' s' => some (p', s')

/-- `find_iter`'s scan: at each position try a match; on success emit the
span and continue after it, otherwise advance one character.  `fuel`
bounds the recursion (`s.length + 1` always suffices). -/
def scan (re : RE) : Nat → Option Char → List Char → Nat → List (Nat × Nat)
  | 0, _, _, _ => []
  | fuel + 1, prev, s, pos =>
    match findAt re prev s with
    | some (p', rest) =>
      let len := s.length - rest.length
      if len = 0 then
        (pos, pos) ::
          (match s with
           | [] => []
           | c :: t => scan re fuel (some c) t (pos + 1))
      else (pos, pos + len) :: scan re fuel p' rest (pos + len)
    | none =>
      match s with
      | [] => []
      | c :: t => scan re fuel (some c) t (pos + 1)

/-- `Regex::find_iter`: the `(start, end)` spans of the non-overlapping
leftmost matches. -/
def find_iter (re : RE) (s : List Char) : List (Nat × Nat) :=
  scan re (s.length + 1) none s 0

/-- Whether `re` can match the empty string at end-of-input with `prev`
just before the position. -/
def matchesNil (re : RE) (prev : Option Char) : Bool :=
  match re with
  | .eps => true
  | .cls _ lo _ => lo = 0
  | .lit cs => cs.isEmpty
  | .bnd => isWordOpt prev
  | .seq a b => matchesNil a prev && matchesNil b prev
  | .alt a b => matchesNil a prev || matchesNil b prev
  | .opt _ => true

lemma descend_none {α : Type} (t : Nat → Option α) (lo : Nat) (j : Nat)
    (h : ∀ i, lo ≤ i → i ≤ j → t i = none) : descend t lo j = none := by
  induction j with
  | zero =>
    unfold descend
    by_cases hlo : lo = 0
    · rw [if_pos hlo, h 0 (by omega) (Nat.le_refl 0)]
    · rw [if_neg hlo]
  | succ j ih =>
    unfold descend
    by_cases hlo : j + 1 < lo
    · rw [if_pos hlo]
    · rw [if_neg hlo, h (j + 1) (by omega) (Nat.le_refl _)]
      simp only []
      rw [ih fun i h1 h2 => h i h1 (Nat.le_succ_of_le h2)]

lemma descend_lt {α : Type} (t : Nat → Option α) (lo : Nat) (j : Nat)
    (h : j < lo) : descend t lo j = none := by
  cases j with
  | zero => unfold descend; rw [if_neg (by omega)]
  | succ j => unfold descend; rw [if_pos h]

lemma descend_self {α : Type} (t : Nat → Option α) (lo : Nat) :
    descend t lo lo = t lo := by
  cases lo with
  | zero => unfold descend; rw [if_pos rfl]
  | succ j =>
    unfold descend
    rw [if_neg (by omega)]
    cases ht : t (j + 1) with
    | some r => rfl
    | none => rw [descend_lt t (j + 1) j (Nat.lt_succ_self j)]

lemma mtch_none_cont (re : RE) : ∀ (prev : Option Char) (s : List Char)
    (k : Option Char → List Char → MRes), (∀ p' s', k p' s' = none) →
    mtch re prev s k = none := by
  induction re with
  | eps => intro prev s k hk; exact hk prev s
  | cls p lo hi =>
    intro prev s k hk
    unfold mtch
    exact descend_none _ _ _ fun i _ _ => hk _ _
  | lit cs =>
    intro prev s k hk
    unfold mtch
    split
    · exact hk _ _
    · rfl
  | bnd =>
    intro prev s k hk
    unfold mtch
    split
    · exact hk _ _
    · rfl
  | seq a b iha ihb =>
    intro prev s k hk
    unfold mtch
    exact iha _ _ _ fun p' s' => ihb _ _ _ hk
  | alt a b iha ihb =>
    intro prev s k hk
    unfold mtch
    rw [iha _ _ _ hk]
    exact ihb _ _ _ hk
  | opt a iha =>
    intro prev s k hk
    unfold mtch
    rw [iha _ _ _ hk]
    exact hk _ _

lemma mtch_nil (re : RE) (prev : Option Char)
    (k : Option Char → List Char → MRes) :
    mtch re prev [] k = if matchesNil re prev then k prev [] else none := by
  induction re generalizing prev k with
  | eps => simp [mtch, matchesNil]
  | cls p lo hi =>
    unfold mtch
    have hrun : runLen p [] hi = 0 := by unfold runLen; rfl
    rw [hrun]
    unfold descend
    by_cases hlo : lo = 0
    · simp [hlo, matchesNil, prevAfter]
    · simp [hlo, matchesNil]
  | lit cs =>
    unfold mtch
    cases cs with
    | nil => simp [matchesNil]
    | cons c cr =>
      rw [if_neg (by simp)]
      simp [matchesNil]
  | bnd =>
    unfold mtch
    unfold isWordHead
    by_cases hw : isWordOpt prev
    · simp [hw, matchesNil]
    · simp only [Bool.not_eq_true] at hw
      simp [hw, matchesNil]
  | seq a b iha ihb =>
    unfold mtch
    rw [iha]
    by_cases ha : matchesNil a prev
    · rw [if_pos ha, ihb]
      simp [matchesNil, ha]
    · rw [if_neg ha]
      simp [matchesNil, ha]
  | alt a b iha ihb =>
    unfold mtch
    rw [iha, ihb]
    by_cases ha : matchesNil a prev
    · rw [if_pos ha]
      cases hkv : k prev [] with
      | some r => simp [matchesNil, ha, hkv]
      | none => simp only [hkv]; split <;> simp [matchesNil, ha, hkv]
    · simp [matchesNil, ha]
  | opt a iha =>
    unfold mtch
    rw [iha]
    by_cases ha : matchesNil a prev
    · rw [if_pos ha]
      cases hkv : k prev [] with
      | some r => simp [matchesNil, hkv]
      | none => simp [matchesNil, hkv]
    · simp [matchesNil, ha]

/-! ### Character classes and the transliterated pattern table -/

/-- `\d` (ASCII reading). -/
def isDigitC (c : Char) : Bool := '0' ≤ c && c ≤ '9'
/-- `[A-Z]`. -/
def isUpperC (c : Char) : Bool := 'A' ≤ c && c ≤ 'Z'
/-- `[a-z]`. -/
def isLowerC (c : Char) : Bool := 'a' ≤ c && c ≤ 'z'
/-- `[A-Za-z]`. -/
def isAlphaC (c : Char) : Bool := isUpperC c || isLowerC c
/-- `[a-zA-Z0-9]`. -/
def isAlnumC (c : Char) : Bool := isAlphaC c || isDigitC c
/-- `\s` (ASCII reading: space, tab, newline, carriage return, vertical
tab, form feed). -/
def isSpaceC (c : Char) : Bool :=
  c = ' ' || c = '\t' || c = '\n' || c = '\r' || c = '\x0b' || c = '\x0c'
/-- `[-\s]`. -/
def isDashSpaceC (c : Char) : Bool := c = '-' || isSpaceC c
/-- `[-.\s]`. -/
def isDotDashSpaceC (c : Char) : Bool := c = '-' || c = '.' || isSpaceC c
/-- `[A-Za-z0-9._%+-]` (email local part). -/
def isEmailLocalC (c : Char) : Bool :=
  isAlnumC c || c = '.' || c = '_' || c = '%' || c = '+' || c = '-'
/-- `[A-Za-z0-9.-]` (email domain). -/
def isEmailDomainC (c : Char) : Bool := isAlnumC c || c = '.' || c = '-'
/-- `[A-Z|a-z]` (the literal `|` is part of the class in the source). -/
def isEmailTldC (c : Char) : Bool := isAlphaC c || c = '|'
/-- `[a-fA-F0-9]`. -/
def isHexC (c : Char) : Bool :=
  isDigitC c || ('a' ≤ c && c ≤ 'f') || ('A' ≤ c && c ≤ 'F')
/-- `[1-9]`. -/
def isNonZeroDigitC (c : Char) : Bool := '1' ≤ c && c ≤ '9'
/-- `\+`. -/
def isPlusC (c : Char) : Bool := c = '+'
/-- `\(`. -/
def isLParenC (c : Char) : Bool := c = '('
/-- `\)`. -/
def isRParenC (c : Char) : Bool := c = ')'
/-- `[:-]`. -/
def isColonDashC (c : Char) : Bool := c = ':' || c = '-'
/-- The class holding `-` and `/` (date separators). -/
def isDashSlashC (c : Char) : Bool := c = '-' || c = '/'
/-- `,`. -/
def isCommaC (c : Char) : Bool := c = ','
/-- `[A-Za-z\s]` (street-name letters and spaces). -/
def isAddrNameC (c : Char) : Bool := isAlphaC c || isSpaceC c
/-- `[:\s]`. -/
def isColonSpaceC (c : Char) : Bool := c = ':' || isSpaceC c
/-- `[_-]`. -/
def isUnderDashC (c : Char) : Bool := c = '_' || c = '-'
/-- `[baprs]`. -/
def isBaprsC (c : Char) : Bool :=
  c = 'b' || c = 'a' || c = 'p' || c = 'r' || c = 's'
/-- `[a-zA-Z0-9-]`. -/
def isAlnumDashC (c : Char) : Bool := isAlnumC c || c = '-'

/-- Concatenation of a pattern-element list. -/
def reSeq : List RE → RE
  | [] => .eps
  | r :: rs => .seq r (reSeq rs)

/-- Left-preferring alternation of a pattern list. -/
def reAlt : List RE → RE
  | [] => .eps
  | [r] => r
  | r :: rs => .alt r (reAlt rs)

/-- `\b(?:\d{4}[-\s]?){3}\d{4}\b` (first CreditCard pattern; `{3}` unrolled). -/
def ccRe1 : RE :=
  reSeq [.bnd,
    .cls isDigitC 4 (some 4), .cls isDashSpaceC 0 (some 1),
    .cls isDigitC 4 (some 4), .cls isDashSpaceC 0 (some 1),
    .cls isDigitC 4 (some 4), .cls isDashSpaceC 0 (some 1),
    .cls isDigitC 4 (some 4), .bnd]

/-- `\b\d{13,19}\b` (second CreditCard pattern). -/
def ccRe2 : RE := reSeq [.bnd, .cls isDigitC 13 (some 19), .bnd]

/-- `\b\d{3}[-\s]?\d{2}[-\s]?\d{4}\b` (SSN). -/
def ssnRe : RE :=
  reSeq [.bnd, .cls isDigitC 3 (some 3), .cls isDashSpaceC 0 (some 1),
    .cls isDigitC 2 (some 2), .cls isDashSpaceC 0 (some 1),
    .cls isDigitC 4 (some 4), .bnd]

/-- `\b[A-Za-z0-9._%+-]+@[A-Za-z0-9.-]+\.[A-Z|a-z]{2,}\b` (Email). -/
def emailRe : RE :=
  reSeq [.bnd, .cls isEmailLocalC 1 none, .lit ['@'],
    .cls isEmailDomainC 1 none, .lit ['.'], .cls isEmailTldC 2 none, .bnd]

/-- `\b(?:\+?1[-.\s]?)?\(?[0-9]{3}\)?[-.\s]?[0-9]{3}[-.\s]?[0-9]{4}\b`
(first Phone pattern). -/
def phoneRe1 : RE :=
  reSeq [.bnd,
    .opt (reSeq [.cls isPlusC 0 (some 1), .lit ['1'], .cls isDotDashSpaceC 0 (some 1)]),
    .cls isLParenC 0 (some 1), .cls isDigitC 3 (some 3), .cls isRParenC 0 (some 1),
    .cls isDotDashSpaceC 0 (some 1), .cls isDigitC 3 (some 3),
    .cls isDotDashSpaceC 0 (some 1), .cls isDigitC 4 (some 4), .bnd]

/-- `\b\+?[1-9]\d{1,14}\b` (second Phone pattern). -/
def phoneRe2 : RE :=
  reSeq [.bnd, .cls isPlusC 0 (some 1), .cls isNonZeroDigitC 1 (some 1),
    .cls isDigitC 1 (some 14), .bnd]

/-- `\b(?:\d{1,3}\.){3}\d{1,3}\b` (IPv4; `{3}` unrolled). -/
def ipv4Re : RE :=
  reSeq [.bnd, .cls isDigitC 1 (some 3), .lit ['.'],
    .cls isDigitC 1 (some 3), .lit ['.'], .cls isDigitC 1 (some 3), .lit ['.'],
    .cls isDigitC 1 (some 3), .bnd]

/-- `\b(?:[a-fA-F0-9]{1,4}:){7}[a-fA-F0-9]{1,4}\b` (IPv6; `{7}` unrolled). -/
def ipv6Re : RE :=
  reSeq [.bnd,
    .cls isHexC 1 (some 4), .lit [':'], .cls isHexC 1 (some 4), .lit [':'],
    .cls isHexC 1 (some 4), .lit [':'], .cls isHexC 1 (some 4), .lit [':'],
    .cls isHexC 1 (some 4), .lit [':'], .cls isHexC 1 (some 4), .lit [':'],
    .cls isHexC 1 (some 4), .lit [':'], .cls isHexC 1 (some 4), .bnd]

/-- `\b(?:[a-fA-F0-9]{2}[:-]){5}[a-fA-F0-9]{2}\b` (MAC; `{5}` unrolled). -/
def macRe : RE :=
  reSeq [.bnd,
    .cls isHexC 2 (some 2), .cls isColonDashC 1 (some 1),
    .cls isHexC 2 (some 2), .cls isColonDashC 1 (some 1),
    .cls isHexC 2 (some 2), .cls isColonDashC 1 (some 1),
    .cls isHexC 2 (some 2), .cls isColonDashC 1 (some 1),
    .cls isHexC 2 (some 2), .cls isColonDashC 1 (some 1),
    .cls isHexC 2 (some 2), .bnd]

/-- First DateOfBirth pattern: `\b`, 1–2 digits, a dash-or-slash, 1–2
digits, a dash-or-slash, 2–4 digits, `\b`. -/
def dob1Re : RE :=
  reSeq [.bnd, .cls isDigitC 1 (some 2), .cls isDashSlashC 1 (some 1),
    .cls isDigitC 1 (some 2), .cls isDashSlashC 1 (some 1),
    .cls isDigitC 2 (some 4), .bnd]

/-- `\b(?:Jan|Feb|Mar|Apr|May|Jun|Jul|Aug|Sep|Oct|Nov|Dec)[a-z]*\s+\d{1,2},?\s+\d{4}\b`
(second DateOfBirth pattern). -/
def dob2Re : RE :=
  reSeq [.bnd,
    reAlt ((["Jan", "Feb", "Mar", "Apr", "May", "Jun", "Jul", "Aug", "Sep",
      "Oct", "Nov", "Dec"] : List String).map fun m => .lit m.toList),
    .cls isLowerC 0 none, .cls isSpaceC 1 none, .cls isDigitC 1 (some 2),
    .cls isCommaC 0 (some 1), .cls isSpaceC 1 none, .cls isDigitC 4 (some 4), .bnd]

/-- `\b\d+\s+[A-Za-z\s]+(?:Street|St|Avenue|Ave|Road|Rd|Boulevard|Blvd|Drive|Dr|Lane|Ln|Way|Court|Ct)\b`
(Address). -/
def addressRe : RE :=
  reSeq [.bnd, .cls isDigitC 1 none, .cls isSpaceC 1 none,
    .cls isAddrNameC 1 none,
    reAlt ((["Street", "St", "Avenue", "Ave", "Road", "Rd", "Boulevard",
      "Blvd", "Drive", "Dr", "Lane", "Ln", "Way", "Court", "Ct"] :
        List String).map fun m => .lit m.toList),
    .bnd]

/-- `\b[A-Z]{1,2}\d{6,9}\b` (first Passport pattern). -/
def passport1Re : RE :=
  reSeq [.bnd, .cls isUpperC 1 (some 2), .cls isDigitC 6 (some 9), .bnd]

/-- `\b\d{9}\b` (second Passport pattern). -/
def passport2Re : RE := reSeq [.bnd, .cls isDigitC 9 (some 9), .bnd]

/-- `\b[A-Z]\d{7,12}\b` (first DriverLicense pattern). -/
def dl1Re : RE :=
  reSeq [.bnd, .cls isUpperC 1 (some 1), .cls isDigitC 7 (some 12), .bnd]

/-- `\b\d{7,12}[A-Z]\b` (second DriverLicense pattern). -/
def dl2Re : RE :=
  reSeq [.bnd, .cls isDigitC 7 (some 12), .cls isUpperC 1 (some 1), .bnd]

/-- `\b\d{8,17}\b` (BankAccount). -/
def bankRe : RE := reSeq [.bnd, .cls isDigitC 8 (some 17), .bnd]

/-- `\bMRN[:\s]?\d{6,10}\b` (first MedicalRecord pattern). -/
def mrn1Re : RE :=
  reSeq [.bnd, .lit "MRN".toList, .cls isColonSpaceC 0 (some 1),
    .cls isDigitC 6 (some 10), .bnd]

/-- `\b\d{2}[A-Z]\d{5}[A-Z]\d{2}\b` (second MedicalRecord pattern). -/
def mrn2Re : RE :=
  reSeq [.bnd, .cls isDigitC 2 (some 2), .cls isUpperC 1 (some 1),
    .cls isDigitC 5 (some 5), .cls isUpperC 1 (some 1),
    .cls isDigitC 2 (some 2), .bnd]

/-- `\b(?:api[_-]?key|token|secret|auth)[_-]?[a-zA-Z0-9]{16,}\b`
(first APIKey pattern). -/
def api1Re : RE :=
  reSeq [.bnd,
    reAlt [reSeq [.lit "api".toList, .cls isUnderDashC 0 (some 1), .lit "key".toList],
      .lit "token".toList, .lit "secret".toList, .lit "auth".toList],
    .cls isUnderDashC 0 (some 1), .cls isAlnumC 16 none, .bnd]

/-- `\bsk-[a-zA-Z0-9]{20,}\b` (second APIKey pattern). -/
def api2Re : RE := reSeq [.bnd, .lit "sk-".toList, .cls isAlnumC 20 none, .bnd]

/-- `\bghp_[a-zA-Z0-9]{36}\b` (third APIKey pattern). -/
def api3Re : RE := reSeq [.bnd, .lit "ghp_".toList, .cls isAlnumC 36 (some 36), .bnd]

/-- `\bxox[baprs]-[a-zA-Z0-9-]{10,}\b` (fourth APIKey pattern). -/
def api4Re : RE :=
  reSeq [.bnd, .lit "xox".toList, .cls isBaprsC 1 (some 1), .lit ['-'],
    .cls isAlnumDashC 10 none, .bnd]

/-- `PIIType` from `pii_detector.rs`. -/
inductive PIIType where
  | CreditCard
  | SSN
  | Email
  | Phone
  | IPAddress
  | MACAddress
  | DateOfBirth
  | Address
  | Passport
  | DriverLicense
  | BankAccount
  | MedicalRecord
  | APIKey
  deriving DecidableEq, Repr

/-- `PIIType::name`. -/
def PIIType.name : PIIType → List Char
  | .CreditCard => "Credit Card".toList
  | .SSN => "Social Security Number".toList
  | .Email => "Email Address".toList
  | .Phone => "Phone Number".toList
  | .IPAddress => "IP Address".toList
  | .MACAddress => "MAC Address".toList
  | .DateOfBirth => "Date of Birth".toList
  | .Address => "Street Address".toList
  | .Passport => "Passport Number".toList
  | .DriverLicense => "Driver's License".toList
  | .BankAccount => "Bank Account".toList
  | .MedicalRecord => "Medical Record".toList
  | .APIKey => "API Key".toList

/-- `build_patterns` from `pii_patterns.rs`, in source order. -/
def build_patterns : List (PIIType × RE) :=
  [(.CreditCard, ccRe1), (.CreditCard, ccRe2), (.SSN, ssnRe),
   (.Email, emailRe), (.Phone, phoneRe1), (.Phone, phoneRe2),
   (.IPAddress, ipv4Re), (.IPAddress, ipv6Re), (.MACAddress, macRe),
   (.DateOfBirth, dob1Re), (.DateOfBirth, dob2Re), (.Address, addressRe),
   (.Passport, passport1Re), (.Passport, passport2Re),
   (.DriverLicense, dl1Re), (.DriverLicense, dl2Re),
   (.BankAccount, bankRe), (.MedicalRecord, mrn1Re), (.MedicalRecord, mrn2Re),
   (.APIKey, api1Re), (.APIKey, api2Re), (.APIKey, api3Re), (.APIKey, api4Re)]

/-- `luhn_check` from `pii_patterns.rs` (`u32` sums cannot overflow here:
at most 19 digits of value ≤ 18 each). -/
def luhn_check (number : List Char) : Bool :=
  let digits := number.filterMap fun c =>
    if isDigitC c then some (c.toNat - 48) else none
  if digits.length < 13 || 19 < digits.length then false
  else
    let r := digits.reverse.foldl
      (fun (acc : Nat × Bool) digit =>
        let d := if acc.2 then
          (let x := digit * 2; if 9 < x then x - 9 else x) else digit
        (acc.1 + d, !acc.2))
      (0, false)
    r.1 % 10 = 0

/-- Byte-lexicographic `<` on strings (Rust `str` comparison; ASCII here). -/
def strLtB : List Char → List Char → Bool
  | [], [] => false
  | [], _ :: _ => true
  | _ :: _, [] => false
  | a :: as, b :: bs => if a < b then true else if b < a then false else strLtB as bs

/-- `calculate_confidence` from `pii_patterns.rs`, in hundredths: the
source's `f32` constants `{0.5, 0.6, 0.7, 0.75, 0.85, 0.9, 0.95, 0.98}`
are modelled as `{50, 60, 70, 75, 85, 90, 95, 98}`.  Rounding the decimal
constants to `f32` preserves their strict order, so every comparison in
the pipeline (`>` in `remove_overlaps`, `<` against the 0.7 threshold in
`sanitize`) agrees with this integer scale. -/
def calculate_confidence (pii_type : PIIType) (text : List Char) : Nat :=
  match pii_type with
  | .Email => if text.contains '@' && text.contains '.' then 95 else 70
  | .CreditCard => 95
  | .SSN =>
    let digits := text.filter isDigitC
    if digits.length = 9 then
      let area := digits.take 3
      if area ≠ "000".toList ∧ area ≠ "666".toList ∧
          strLtB area "900".toList then 90 else 50
    else 60
  | .Phone =>
    if text.take 1 = ['+'] || (text.filter isDigitC).length = 10 then 85
    else 60
  | .APIKey =>
    if text.take 3 = "sk-".toList || text.take 4 = "ghp_".toList ||
        text.take 3 = "xox".toList then 98
    else 70
  | _ => 75

/-- `PIIMatch` from `pii_detector.rs` (`end` is a Lean keyword, hence
`end_`). -/
structure PIIMatch where
  pii_type : PIIType
  text : List Char
  start : Nat
  end_ : Nat
  confidence : Nat
  deriving DecidableEq, Repr

/-- One step of the `remove_overlaps` loop from `pii_patterns.rs`. -/
def removeOverlapsGo (current : PIIMatch) : List PIIMatch → List PIIMatch
  | [] => [current]
  | m :: ms =>
    if m.start < current.end_ then
      removeOverlapsGo (if current.confidence < m.confidence then m else current) ms
    else current :: removeOverlapsGo m ms

/-- `remove_overlaps` from `pii_patterns.rs`. -/
def remove_overlaps : List PIIMatch → List PIIMatch
  | [] => []
  | [m] => [m]
  | m :: ms => removeOverlapsGo m ms

/-- Stable insertion used by `sortByStart`. -/
def insertByStart (m : PIIMatch) : List PIIMatch → List PIIMatch
  | [] => [m]
  | x :: xs => if x.start ≤ m.start then x :: insertByStart m xs else m :: x :: xs

/-- `matches.sort_by_key(|m| m.start)`: Rust's sort is stable, and a stable
sort by key is extensionally unique, so this stable insertion sort computes
the same list. -/
def sortByStart (l : List PIIMatch) : List PIIMatch :=
  l.foldl (fun acc m => insertByStart m acc) []

/-- The characters of the span `[a, b)` of `s`. -/
def sliceChars (s : List Char) (a b : Nat) : List Char :=
  (s.drop a).take (b - a)

/-- `PIIDetector::detect` on the already-NFKC-normalized text
(`validate_credit_cards` is `true` in `PIIDetector::new`; the NFKC
normalization itself comes from the external `unicode_normalization` crate
and is applied by the caller — it is the identity on ASCII text). -/
def detect (validate_credit_cards : Bool) (normalized : List Char) :
    List PIIMatch :=
  let found := build_patterns.foldl
    (fun acc pr =>
      acc ++ (find_iter pr.2 normalized).filterMap fun span =>
        let matched_text := sliceChars normalized span.1 span.2
        if pr.1 = .CreditCard && validate_credit_cards &&
            ! luhn_check (matched_text.filter isDigitC) then none
        else some ⟨pr.1, matched_text, span.1, span.2,
          calculate_confidence pr.1 matched_text⟩)
    []
  remove_overlaps (sortByStart found)

/-! ## `security/output_sanitizer.rs` : output sanitization -/

/-- `SanitizerConfig` from `output_sanitizer.rs`. -/
structure SanitizerConfig where
  redact_pii : Bool
  filter_content : Bool
  max_length : Nat
  pii_confidence_threshold : Nat
  redact_types : List PIIType
  deriving DecidableEq, Repr

/-- `SanitizerConfig::default`. -/
def SanitizerConfig.default_config : SanitizerConfig :=
  ⟨true, true, 100000, 70,
    [.SSN, .CreditCard, .Email, .Phone, .APIKey, .Passport, .BankAccount,
     .MedicalRecord]⟩

/-- `SanitizationResult` from `output_sanitizer.rs` (warnings carry a
formatted message whose text is immaterial here, so only their number is
kept). -/
structure SanitizationResult where
  output : List Char
  modified : Bool
  pii_redacted : Nat
  content_filtered : Nat
  warnings : Nat
  deriving DecidableEq, Repr

/-- `OutputSanitizer::redact_pii`:
`replace_range(m.start..m.end, "[REDACTED:<name>]")`. -/
def redact_pii_match (text : List Char) (m : PIIMatch) : List Char :=
  text.take m.start ++ ("[REDACTED:".toList ++ m.pii_type.name ++ [']']) ++
    text.drop m.end_

/-- ASCII lowercasing (`str::to_lowercase`; Unicode-equal on ASCII). -/
def toLowerStr (s : List Char) : List Char := s.map Char.toLower

/-- Substring containment (`str::contains`). -/
def containsSub (needle : List Char) : List Char → Bool
  | [] => needle.isEmpty
  | c :: rest => decide ((c :: rest).take needle.length = needle) ||
      containsSub needle rest

/-- `str::replace`: replace all non-overlapping occurrences, left to right. -/
def replaceAll (pat rep : List Char) : List Char → List Char
  | [] => []
  | c :: rest =>
    if h : pat ≠ [] ∧ (c :: rest).take pat.length = pat then
      rep ++ replaceAll pat rep ((c :: rest).drop pat.length)
    else
      c :: replaceAll pat rep rest
  termination_by s => s.length
  decreasing_by
    · simp only [List.length_drop, List.length_cons]
      have : pat.length ≠ 0 := by
        intro hc
        exact h.1 (List.eq_nil_of_length_eq_zero hc)
      omega
    · simp [Nat.lt_succ_self]

/-- The content-filter phrase table from `filter_content_patterns`. -/
def content_patterns : List (List Char × List Char) :=
  [("I want to kill myself".toList,
    "If you're having thoughts of self-harm, please reach out to a crisis helpline: 988".toList),
   ("I want to die".toList,
    "If you're having thoughts of self-harm, please reach out to a crisis helpline: 988".toList),
   ("how to make a bomb".toList, "[CONTENT FILTERED: Dangerous content]".toList),
   ("how to create a virus".toList, "[CONTENT FILTERED: Dangerous content]".toList)]

/-- `OutputSanitizer::filter_content_patterns`. -/
def filter_content_patterns (text : List Char) : List Char × Nat :=
  content_patterns.foldl
    (fun acc pr =>
      if containsSub pr.1 (toLowerStr acc.1) then
        (replaceAll pr.1 pr.2 acc.1, acc.2 + 1)
      else acc)
    (text, 0)

/-- `OutputSanitizer::sanitize`.  `nfkc` is the external NFKC
normalization applied inside `PIIDetector::detect` (identity on ASCII). -/
def sanitize (nfkc : List Char → List Char) (config : SanitizerConfig)
    (output : List Char) : SanitizationResult :=
  let truncated := config.max_length < output.length
  let result1 := if truncated then output.take config.max_length else output
  let warnings := if truncated then 1 else 0
  let modified1 := truncated
  let piiStep :=
    if config.redact_pii then
      (detect true (nfkc result1)).foldl
        (fun (acc : List Char × Bool × Nat) m =>
          if ! decide (m.pii_type ∈ config.redact_types) then acc
          else if m.confidence < config.pii_confidence_threshold then acc
          else (redact_pii_match acc.1 m, true, acc.2.2 + 1))
        (result1, modified1, 0)
    else (result1, modified1, 0)
  let filtered := filter_content_patterns piiStep.1
  if 0 < filtered.2 then
    ⟨filtered.1, true, piiStep.2.2, filtered.2, warnings⟩
  else
    ⟨piiStep.1, piiStep.2.1, piiStep.2.2, 0, warnings⟩

lemma sanitize_nfkc_congr (n1 n2 : List Char → List Char)
    (config : SanitizerConfig) (output : List Char)
    (h : n1 (if config.max_length < output.length then
        output.take config.max_length else output) =
      n2 (if config.max_length < output.length then
        output.take config.max_length else output)) :
    sanitize n1 config output = sanitize n2 config output := by
  simp only [sanitize]
  rw [h]

/-- **C8**: sanitizing `"Contact support@example.com"` with the default
configuration (NFKC normalization being the identity on this ASCII input)
returns exactly `"Contact [REDACTED:Email Address]"` with
`pii_redacted = 1`. -/
theorem C8_sanitize_email (nfkc : List Char → List Char)
    (hnf : nfkc "Contact support@example.com".toList =
      "Contact support@example.com".toList) :
    (sanitize nfkc SanitizerConfig.default_config
        "Contact support@example.com".toList).output =
      "Contact [REDACTED:Email Address]".toList ∧
    (sanitize nfkc SanitizerConfig.default_config
        "Contact support@example.com".toList).pii_redacted = 1 := by
  have hc : sanitize nfkc SanitizerConfig.default_config
      "Contact support@example.com".toList =
      sanitize id SanitizerConfig.default_config
        "Contact support@example.com".toList := by
    apply sanitize_nfkc_congr
    rw [if_neg (by decide)]
    rw [hnf]
    rfl
  rw [hc]
  exact ⟨by decide, by decide⟩

/-- Witness for C8: the theorem applied with the identity normalization. -/
theorem C8_sanitize_email_witness :
    (sanitize id SanitizerConfig.default_config
        "Contact support@example.com".toList).output =
      "Contact [REDACTED:Email Address]".toList ∧
    (sanitize id SanitizerConfig.default_config
        "Contact support@example.com".toList).pii_redacted = 1 :=
  C8_sanitize_email id rfl

/-! ### C7: behaviour of the pattern table on pure digit strings -/

/-- All characters are ASCII digits. -/
def allDigit (s : List Char) : Prop := ∀ c ∈ s, isDigitC c = true

instance (s : List Char) : Decidable (allDigit s) := by
  unfold allDigit
  infer_instance

lemma digit_mem {c : Char} (h : isDigitC c = true) :
    c ∈ "0123456789".toList := by
  unfold isDigitC at h
  rw [Bool.and_eq_true] at h
  obtain ⟨h1, h2⟩ := h
  rw [decide_eq_true_eq] at h1 h2
  have h1' : ('0' : Char).toNat ≤ c.toNat := h1
  have h2' : c.toNat ≤ ('9' : Char).toNat := h2
  rw [show ('0' : Char).toNat = 48 from rfl] at h1'
  rw [show ('9' : Char).toNat = 57 from rfl] at h2'
  have hv : c.toNat = 48 ∨ c.toNat = 49 ∨ c.toNat = 50 ∨ c.toNat = 51 ∨
      c.toNat = 52 ∨ c.toNat = 53 ∨ c.toNat = 54 ∨ c.toNat = 55 ∨
      c.toNat = 56 ∨ c.toNat = 57 := by omega
  have hc : ∀ n, c.toNat = n → c = Char.ofNat n := by
    intro n hn
    subst hn
    simp [Char.ofNat_toNat]
  rcases hv with h | h | h | h | h | h | h | h | h | h <;> rw [hc _ h] <;> decide

/-- Transfer a decidable fact about the ten digit characters to any digit. -/
lemma digit_fact (P : Char → Prop) [DecidablePred P]
    (hP : ∀ c ∈ "0123456789".toList, P c) {c : Char}
    (h : isDigitC c = true) : P c :=
  hP c (digit_mem h)

lemma allDigit_drop {s : List Char} (hs : allDigit s) (j : Nat) :
    allDigit (s.drop j) :=
  fun c hc => hs c (List.drop_subset j s hc)

lemma allDigit_tail {c : Char} {t : List Char} (hs : allDigit (c :: t)) :
    allDigit t :=
  fun x hx => hs x (List.mem_cons_of_mem c hx)

lemma runLen_all_none {p : Char → Bool} :
    ∀ {s : List Char}, (∀ c ∈ s, p c = true) → runLen p s none = s.length := by
  intro s
  induction s with
  | nil => intro _; rfl
  | cons c t ih =>
    intro h
    unfold runLen
    rw [if_neg (by simp), if_pos (h c (by simp))]
    simp [ih fun x hx => h x (List.mem_cons_of_mem c hx)]

lemma runLen_all_some {p : Char → Bool} :
    ∀ {s : List Char} {m : Nat}, (∀ c ∈ s, p c = true) →
      runLen p s (some m) = min s.length m := by
  intro s
  induction s with
  | nil =>
    intro m _
    show 0 = min 0 m
    omega
  | cons c t ih =>
    intro m h
    unfold runLen
    by_cases hm : m = 0
    · subst hm
      simp
    · rw [if_neg (by simp [hm]), if_pos (h c (by simp))]
      have hih : runLen p t (some (m - 1)) = min t.length (m - 1) :=
        ih fun x hx => h x (List.mem_cons_of_mem c hx)
      show runLen p t (some (m - 1)) + 1 = min (c :: t).length m
      rw [hih]
      simp only [List.length_cons]
      omega

lemma runLen_head_false {p : Char → Bool} {c : Char} {t : List Char}
    (hc : p c = false) (hi : Option Nat) : runLen p (c :: t) hi = 0 := by
  unfold runLen
  split
  · rfl
  · rw [hc]
    simp

lemma descend_top_some {α : Type} (t : Nat → Option α) (lo j : Nat) (r : α)
    (hle : lo ≤ j) (ht : t j = some r) : descend t lo j = some r := by
  cases j with
  | zero =>
    unfold descend
    rw [if_pos (by omega), ht]
  | succ j =>
    unfold descend
    rw [if_neg (by omega), ht]

/-! Definitional equations for `mtch` and `scan`, for rewriting. -/

lemma mtch_eps (prev : Option Char) (s : List Char) (k) :
    mtch .eps prev s k = k prev s := rfl

lemma mtch_cls (p : Char → Bool) (lo : Nat) (hi : Option Nat)
    (prev : Option Char) (s : List Char) (k) :
    mtch (.cls p lo hi) prev s k =
      descend (fun j => k (prevAfter prev s j) (s.drop j)) lo (runLen p s hi) := rfl

lemma mtch_lit (cs : List Char) (prev : Option Char) (s : List Char) (k) :
    mtch (.lit cs) prev s k =
      if s.take cs.length = cs then
        k (match cs.getLast? with | some c => some c | none => prev)
          (s.drop cs.length)
      else none := rfl

lemma mtch_bnd (prev : Option Char) (s : List Char) (k) :
    mtch .bnd prev s k =
      if isWordOpt prev != isWordHead s then k prev s else none := rfl

lemma mtch_seq (a b : RE) (prev : Option Char) (s : List Char) (k) :
    mtch (.seq a b) prev s k =
      mtch a prev s fun p' s' => mtch b p' s' k := rfl

lemma mtch_alt (a b : RE) (prev : Option Char) (s : List Char) (k) :
    mtch (.alt a b) prev s k =
      match mtch a prev s k with
      | some r => some r
      | none => mtch b prev s k := rfl

lemma mtch_opt (a : RE) (prev : Option Char) (s : List Char) (k) :
    mtch (.opt a) prev s k =
      match mtch a prev s k with
      | some r => some r
      | none => k prev s := rfl

lemma scan_zero (re : RE) (prev : Option Char) (s : List Char) (pos : Nat) :
    scan re 0 prev s pos = [] := rfl

lemma scan_succ (re : RE) (fuel : Nat) (prev : Option Char) (s : List Char)
    (pos : Nat) :
    scan re (fuel + 1) prev s pos =
      match findAt re prev s with
      | some (p', rest) =>
        let len := s.length - rest.length
        if len = 0 then
          (pos, pos) ::
            (match s with
             | [] => []
             | c :: t => scan re fuel (some c) t (pos + 1))
        else (pos, pos + len) :: scan re fuel p' rest (pos + len)
      | none =>
        match s with
        | [] => []
        | c :: t => scan re fuel (some c) t (pos + 1) := rfl

lemma prevAfter_digit {s : List Char} (hs : allDigit s) (prev : Option Char)
    {j : Nat} (h1 : 1 ≤ j) (h2 : j ≤ s.length) :
    ∃ c, prevAfter prev s j = some c ∧ isDigitC c = true := by
  unfold prevAfter
  rw [if_neg (by omega)]
  have hlt : j - 1 < s.length := by omega
  refine ⟨s.get ⟨j - 1, hlt⟩, ?_, hs _ (s.get_mem _ hlt)⟩
  simp [List.getElem?_eq_getElem hlt]

lemma findAt_seq_bnd_interior (tail : RE) (c : Char) (s : List Char)
    (hc : isDigitC c = true) (hs : allDigit s) (hne : s ≠ []) :
    findAt (.seq .bnd tail) (some c) s = none := by
  obtain ⟨d, t, rfl⟩ : ∃ d t, s = d :: t := by
    cases s with
    | nil => exact absurd rfl hne
    | cons d t => exact ⟨d, t, rfl⟩
  unfold findAt
  rw [mtch_seq, mtch_bnd]
  have hwc : isWordChar c = true :=
    digit_fact (fun x => isWordChar x = true) (by decide) hc
  have hwd : isWordChar d = true :=
    digit_fact (fun x => isWordChar x = true) (by decide) (hs d (by simp))
  rw [if_neg]
  simp [isWordOpt, isWordHead, hwc, hwd]

lemma findAt_seq_bnd_nil (tail : RE) (c : Char) (hc : isDigitC c = true)
    (hnil : matchesNil tail (some c) = false) :
    findAt (.seq .bnd tail) (some c) [] = none := by
  unfold findAt
  rw [mtch_seq, mtch_bnd]
  have hwc : isWordChar c = true :=
    digit_fact (fun x => isWordChar x = true) (by decide) hc
  rw [if_pos (by simp [isWordOpt, isWordHead, hwc])]
  rw [mtch_nil, hnil]
  simp

lemma scan_digits_no_match (tail : RE)
    (hnil : ∀ c, isDigitC c = true → matchesNil tail (some c) = false) :
    ∀ (s : List Char) (fuel pos : Nat) (c : Char), isDigitC c = true →
      allDigit s → scan (.seq .bnd tail) fuel (some c) s pos = [] := by
  intro s
  induction s with
  | nil =>
    intro fuel pos c hc _
    cases fuel with
    | zero => rfl
    | succ fuel =>
      rw [scan_succ]
      rw [findAt_seq_bnd_nil tail c hc (hnil c hc)]
  | cons d t ih =>
    intro fuel pos c hc hs
    cases fuel with
    | zero => rfl
    | succ fuel =>
      rw [scan_succ]
      rw [findAt_seq_bnd_interior tail c (d :: t) hc hs (by simp)]
      exact ih fuel (pos + 1) d (hs d (by simp)) (allDigit_tail hs)

lemma find_iter_digits_none (tail : RE)
    (hnil : ∀ c, isDigitC c = true → matchesNil tail (some c) = false)
    (s : List Char) (hs : allDigit s)
    (h0 : findAt (.seq .bnd tail) none s = none) :
    find_iter (.seq .bnd tail) s = [] := by
  unfold find_iter
  cases s with
  | nil =>
    rw [scan_succ, h0]
  | cons c t =>
    rw [show (c :: t).length + 1 = (t.length + 1) + 1 from by simp]
    rw [scan_succ, h0]
    exact scan_digits_no_match tail hnil t _ _ c (hs c (by simp)) (allDigit_tail hs)

lemma find_iter_digits_whole (tail : RE)
    (hnil : ∀ c, isDigitC c = true → matchesNil tail (some c) = false)
    (s : List Char) (hs : allDigit s) (hne : s ≠ []) (p' : Char)
    (hp' : isDigitC p' = true)
    (h0 : findAt (.seq .bnd tail) none s = some (some p', [])) :
    find_iter (.seq .bnd tail) s = [(0, s.length)] := by
  unfold find_iter
  obtain ⟨d, t, rfl⟩ : ∃ d t, s = d :: t := by
    cases s with
    | nil => exact absurd rfl hne
    | cons d t => exact ⟨d, t, rfl⟩
  rw [show (d :: t).length + 1 = (t.length + 1) + 1 from by simp]
  rw [scan_succ, h0]
  simp only [List.length_nil, List.length_cons, Nat.sub_zero]
  rw [if_neg (by omega)]
  rw [show scan (.seq .bnd tail) (t.length + 1) (some p') [] (0 + (t.length + 1)) = []
    from by rw [scan_succ, findAt_seq_bnd_nil tail p' hp' (hnil p' hp')]]
  simp

/-- The matcher's top-level continuation. -/
def finalK : Option Char → List Char → MRes := fun p' s' => some (p', s')

lemma findAt_eq (re : RE) (prev : Option Char) (s : List Char) :
    findAt re prev s = mtch re prev s finalK := rfl

lemma descend_zero {α : Type} (t : Nat → Option α) : descend t 0 0 = t 0 := by
  unfold descend
  rw [if_pos rfl]

lemma runLen_some_zero (p : Char → Bool) (s : List Char) :
    runLen p s (some 0) = 0 := by
  cases s with
  | nil => rfl
  | cons c t =>
    unfold runLen
    rw [if_pos rfl]

lemma runLen_head_true_one {p : Char → Bool} {c : Char} (t : List Char)
    (hc : p c = true) : runLen p (c :: t) (some 1) = 1 := by
  unfold runLen
  rw [if_neg (by simp), hc]
  simp [runLen_some_zero]

/-- Interior `\b` failure: between a digit and a digit every pattern of the
form `\b…` fails, whatever its tail and continuation. -/
lemma mtch_seq_bnd_digit_interior (rest : RE) {c : Char}
    (hc : isDigitC c = true) {u : List Char} (hu : allDigit u) (hne : u ≠ [])
    (k : Option Char → List Char → MRes) :
    mtch (.seq .bnd rest) (some c) u k = none := by
  obtain ⟨d, t, rfl⟩ : ∃ d t, u = d :: t := by
    cases u with
    | nil => exact absurd rfl hne
    | cons d t => exact ⟨d, t, rfl⟩
  rw [mtch_seq, mtch_bnd, if_neg]
  have hwc : isWordChar c = true :=
    digit_fact (fun x => isWordChar x = true) (by decide) hc
  have hwd : isWordChar d = true :=
    digit_fact (fun x => isWordChar x = true) (by decide) (hu d (by simp))
  simp [isWordOpt, isWordHead, hwc, hwd]

/-- Trailing `\b` success at end-of-input after a digit. -/
lemma mtch_bnd_eps_end {c : Char} (hc : isDigitC c = true) :
    mtch (.seq .bnd .eps) (some c) [] finalK = some (some c, []) := by
  rw [mtch_seq, mtch_bnd, if_pos]
  · rfl
  · have hwc : isWordChar c = true :=
      digit_fact (fun x => isWordChar x = true) (by decide) hc
    simp [isWordOpt, isWordHead, hwc]

/-- A literal whose first character is not a digit fails on a digit string
(or at end-of-input). -/
lemma mtch_lit_digit_fail (c0 : Char) (cr : List Char)
    (hnd : ∀ c, isDigitC c = true → c ≠ c0) {u : List Char} (hu : allDigit u)
    (prev : Option Char) (k : Option Char → List Char → MRes) :
    mtch (.lit (c0 :: cr)) prev u k = none := by
  rw [mtch_lit, if_neg]
  cases u with
  | nil => simp
  | cons d t =>
    simp only [List.length_cons, List.take_succ_cons, ne_eq, List.cons.injEq,
      not_and]
    intro hdc
    exact absurd hdc (hnd d (hu d (by simp)))

/-- Opening `\b` at position 0 of a digit string. -/
lemma findAt_digit_start (tail : RE) (d : Char) (t : List Char)
    (hd : isDigitC d = true) :
    findAt (.seq .bnd tail) none (d :: t) = mtch tail none (d :: t) finalK := by
  rw [findAt_eq, mtch_seq, mtch_bnd, if_pos]
  have hwd : isWordChar d = true :=
    digit_fact (fun x => isWordChar x = true) (by decide) hd
  simp [isWordOpt, isWordHead, hwd]

lemma findAt_ccRe2 (s : List Char) (hs : allDigit s) (h13 : 13 ≤ s.length)
    (h19 : s.length ≤ 19) :
    ∃ c, isDigitC c = true ∧ findAt ccRe2 none s = some (some c, []) := by
  obtain ⟨d, t, rfl⟩ : ∃ d t, s = d :: t := by
    cases s with
    | nil => simp at h13
    | cons d t => exact ⟨d, t, rfl⟩
  rw [show ccRe2 = .seq .bnd (.seq (.cls isDigitC 13 (some 19)) (.seq .bnd .eps))
    from rfl]
  rw [findAt_digit_start _ d t (hs d (by simp)), mtch_seq, mtch_cls]
  rw [runLen_all_some hs]
  rw [show min (d :: t).length 19 = (d :: t).length from by omega]
  obtain ⟨c, hcp, hcd⟩ :=
    prevAfter_digit hs none (j := (d :: t).length) (by simp) (Nat.le_refl _)
  refine ⟨c, hcd, ?_⟩
  apply descend_top_some _ _ _ _ (by omega)
  show mtch (.seq .bnd .eps) (prevAfter none (d :: t) (d :: t).length)
      ((d :: t).drop (d :: t).length) finalK = some (some c, [])
  rw [List.drop_length, hcp]
  exact mtch_bnd_eps_end hcd

lemma prevAfter_zero (prev : Option Char) (s : List Char) :
    prevAfter prev s 0 = prev := by
  unfold prevAfter
  rw [if_pos rfl]

lemma drop_ne_nil {s : List Char} {i : Nat} (h : i < s.length) :
    s.drop i ≠ [] := by
  intro hc
  have := congrArg List.length hc
  simp only [List.length_drop, List.length_nil] at this
  omega

lemma findAt_bankRe_some (s : List Char) (hs : allDigit s) (h13 : 13 ≤ s.length)
    (h17 : s.length ≤ 17) :
    ∃ c, isDigitC c = true ∧ findAt bankRe none s = some (some c, []) := by
  obtain ⟨d, t, rfl⟩ : ∃ d t, s = d :: t := by
    cases s with
    | nil => simp at h13
    | cons d t => exact ⟨d, t, rfl⟩
  rw [show bankRe = .seq .bnd (.seq (.cls isDigitC 8 (some 17)) (.seq .bnd .eps))
    from rfl]
  rw [findAt_digit_start _ d t (hs d (by simp)), mtch_seq, mtch_cls]
  rw [runLen_all_some hs]
  rw [show min (d :: t).length 17 = (d :: t).length from by omega]
  obtain ⟨c, hcp, hcd⟩ :=
    prevAfter_digit hs none (j := (d :: t).length) (by simp) (Nat.le_refl _)
  refine ⟨c, hcd, ?_⟩
  apply descend_top_some _ _ _ _ (by omega)
  show mtch (.seq .bnd .eps) (prevAfter none (d :: t) (d :: t).length)
      ((d :: t).drop (d :: t).length) finalK = some (some c, [])
  rw [List.drop_length, hcp]
  exact mtch_bnd_eps_end hcd

lemma findAt_bankRe_none (s : List Char) (hs : allDigit s)
    (h18 : 18 ≤ s.length) : findAt bankRe none s = none := by
  obtain ⟨d, t, rfl⟩ : ∃ d t, s = d :: t := by
    cases s with
    | nil => simp at h18
    | cons d t => exact ⟨d, t, rfl⟩
  rw [show bankRe = .seq .bnd (.seq (.cls isDigitC 8 (some 17)) (.seq .bnd .eps))
    from rfl]
  rw [findAt_digit_start _ d t (hs d (by simp)), mtch_seq, mtch_cls]
  rw [runLen_all_some hs]
  rw [show min (d :: t).length 17 = 17 from by omega]
  apply descend_none
  intro i h8 h17
  obtain ⟨c, hcp, hcd⟩ := prevAfter_digit hs none (j := i) (by omega) (by omega)
  show mtch (.seq .bnd .eps) (prevAfter none (d :: t) i)
      ((d :: t).drop i) finalK = none
  rw [hcp]
  exact mtch_seq_bnd_digit_interior .eps hcd (allDigit_drop hs i)
    (drop_ne_nil (by omega)) finalK

lemma findAt_passport2Re_none (s : List Char) (hs : allDigit s)
    (h13 : 13 ≤ s.length) : findAt passport2Re none s = none := by
  obtain ⟨d, t, rfl⟩ : ∃ d t, s = d :: t := by
    cases s with
    | nil => simp at h13
    | cons d t => exact ⟨d, t, rfl⟩
  rw [show passport2Re =
    .seq .bnd (.seq (.cls isDigitC 9 (some 9)) (.seq .bnd .eps)) from rfl]
  rw [findAt_digit_start _ d t (hs d (by simp)), mtch_seq, mtch_cls]
  rw [runLen_all_some hs]
  rw [show min (d :: t).length 9 = 9 from by omega]
  apply descend_none
  intro i h9 h9'
  obtain ⟨c, hcp, hcd⟩ := prevAfter_digit hs none (j := i) (by omega) (by omega)
  show mtch (.seq .bnd .eps) (prevAfter none (d :: t) i)
      ((d :: t).drop i) finalK = none
  rw [hcp]
  exact mtch_seq_bnd_digit_interior .eps hcd (allDigit_drop hs i)
    (drop_ne_nil (by omega)) finalK

/-- The structure of `phoneRe2` below `\b`. -/
lemma phoneRe2_eq : phoneRe2 =
    .seq .bnd (.seq (.cls isPlusC 0 (some 1))
      (.seq (.cls isNonZeroDigitC 1 (some 1))
        (.seq (.cls isDigitC 1 (some 14)) (.seq .bnd .eps)))) := rfl

lemma findAt_phoneRe2_step (d : Char) (t : List Char)
    (hs : allDigit (d :: t)) :
    findAt phoneRe2 none (d :: t) =
      mtch (.seq (.cls isNonZeroDigitC 1 (some 1))
        (.seq (.cls isDigitC 1 (some 14)) (.seq .bnd .eps))) none (d :: t)
        finalK := by
  rw [phoneRe2_eq, findAt_digit_start _ d t (hs d (by simp)), mtch_seq, mtch_cls]
  have hplus : isPlusC d = false :=
    digit_fact (fun x => isPlusC x = false) (by decide) (hs d (by simp))
  rw [runLen_head_false hplus, descend_zero]
  show mtch _ (prevAfter none (d :: t) 0) ((d :: t).drop 0) _ = _
  rw [prevAfter_zero, List.drop_zero]

lemma findAt_phoneRe2_zero (d : Char) (t : List Char) (hs : allDigit (d :: t))
    (hnz : isNonZeroDigitC d = false) : findAt phoneRe2 none (d :: t) = none := by
  rw [findAt_phoneRe2_step d t hs, mtch_seq, mtch_cls, runLen_head_false hnz]
  exact descend_lt _ _ _ (by omega)

lemma prevAfter_one (prev : Option Char) (d : Char) (t : List Char) :
    prevAfter prev (d :: t) 1 = some d := by
  unfold prevAfter
  rw [if_neg (by omega)]
  simp

lemma findAt_phoneRe2_some (d : Char) (t : List Char) (hs : allDigit (d :: t))
    (hnz : isNonZeroDigitC d = true) (h13 : 13 ≤ (d :: t).length)
    (h15 : (d :: t).length ≤ 15) :
    ∃ c, isDigitC c = true ∧
      findAt phoneRe2 none (d :: t) = some (some c, []) := by
  simp only [List.length_cons] at h13 h15
  obtain ⟨c, hcp, hcd⟩ :=
    prevAfter_digit (allDigit_tail hs) (some d) (j := t.length) (by omega)
      (Nat.le_refl _)
  refine ⟨c, hcd, ?_⟩
  rw [findAt_phoneRe2_step d t hs, mtch_seq, mtch_cls, runLen_head_true_one t hnz]
  rw [descend_self]
  show (mtch (.seq (.cls isDigitC 1 (some 14)) (.seq .bnd .eps))
    (prevAfter none (d :: t) 1) ((d :: t).drop 1) finalK) = _
  rw [prevAfter_one, show (d :: t).drop 1 = t from rfl]
  rw [mtch_seq, mtch_cls, runLen_all_some (allDigit_tail hs)]
  rw [show min t.length 14 = t.length from by omega]
  apply descend_top_some _ _ _ _ (by omega)
  show mtch (.seq .bnd .eps) (prevAfter (some d) t t.length)
      (t.drop t.length) finalK = some (some c, [])
  rw [List.drop_length, hcp]
  exact mtch_bnd_eps_end hcd

lemma findAt_phoneRe2_long (d : Char) (t : List Char) (hs : allDigit (d :: t))
    (h16 : 16 ≤ (d :: t).length) : findAt phoneRe2 none (d :: t) = none := by
  rw [findAt_phoneRe2_step d t hs, mtch_seq, mtch_cls]
  by_cases hnz : isNonZeroDigitC d = true
  · rw [runLen_head_true_one t hnz, descend_self]
    show (mtch (.seq (.cls isDigitC 1 (some 14)) (.seq .bnd .eps))
      (prevAfter none (d :: t) 1) ((d :: t).drop 1) finalK) = none
    rw [prevAfter_one, show (d :: t).drop 1 = t from rfl]
    rw [mtch_seq, mtch_cls, runLen_all_some (allDigit_tail hs)]
    simp only [List.length_cons] at h16
    rw [show min t.length 14 = 14 from by omega]
    apply descend_none
    intro i h1 h14
    obtain ⟨c, hcp, hcd⟩ := prevAfter_digit (allDigit_tail hs) (some d)
      (j := i) (by omega) (by omega)
    show mtch (.seq .bnd .eps) (prevAfter (some d) t i) (t.drop i) finalK = none
    rw [hcp]
    exact mtch_seq_bnd_digit_interior .eps hcd (allDigit_drop (allDigit_tail hs) i)
      (drop_ne_nil (by omega)) finalK
  · rw [runLen_head_false (by simpa using hnz)]
    exact descend_lt _ _ _ (by omega)

lemma runLen_digits_zero {p : Char → Bool} {u : List Char} (hu : allDigit u)
    (hp : ∀ c, isDigitC c = true → p c = false) (hi : Option Nat) :
    runLen p u hi = 0 := by
  cases u with
  | nil => rfl
  | cons d t => exact runLen_head_false (hp d (hu d (by simp))) hi

/-- A `{0,1}`-quantified class that rejects digits is skipped on a digit
string. -/
lemma mtch_cls0_skip (p : Char → Bool)
    (hp : ∀ c, isDigitC c = true → p c = false) (hi : Option Nat) (rest : RE)
    (prev : Option Char) {u : List Char} (hu : allDigit u)
    (k : Option Char → List Char → MRes) :
    mtch (.seq (.cls p 0 hi) rest) prev u k = mtch rest prev u k := by
  rw [mtch_seq, mtch_cls, runLen_digits_zero hu hp, descend_zero]
  show mtch rest (prevAfter prev u 0) (u.drop 0) k = _
  rw [prevAfter_zero, List.drop_zero]

/-- An exactly-`{m}`-quantified digit class consumes exactly `m` digits. -/
lemma mtch_digits_exact (m : Nat) (rest : RE) (prev : Option Char)
    {u : List Char} (hu : allDigit u) (h : m ≤ u.length)
    (k : Option Char → List Char → MRes) :
    mtch (.seq (.cls isDigitC m (some m)) rest) prev u k =
      mtch rest (prevAfter prev u m) (u.drop m) k := by
  rw [mtch_seq, mtch_cls, runLen_all_some hu,
    show min u.length m = m from by omega, descend_self]

/-- An exactly-`{m}`-quantified digit class fails on fewer than `m` digits. -/
lemma mtch_digits_exact_short (m : Nat) (rest : RE) (prev : Option Char)
    {u : List Char} (hu : allDigit u) (h : u.length < m)
    (k : Option Char → List Char → MRes) :
    mtch (.seq (.cls isDigitC m (some m)) rest) prev u k = none := by
  rw [mtch_seq, mtch_cls, runLen_all_some hu,
    show min u.length m = u.length from by omega]
  exact descend_lt _ _ _ h

/-- The structure of `ccRe1` below `\b`. -/
lemma ccRe1_eq : ccRe1 =
    .seq .bnd (.seq (.cls isDigitC 4 (some 4))
      (.seq (.cls isDashSpaceC 0 (some 1)) (.seq (.cls isDigitC 4 (some 4))
        (.seq (.cls isDashSpaceC 0 (some 1)) (.seq (.cls isDigitC 4 (some 4))
          (.seq (.cls isDashSpaceC 0 (some 1)) (.seq (.cls isDigitC 4 (some 4))
            (.seq .bnd .eps)))))))) := rfl

lemma dashSpace_digit_false : ∀ c, isDigitC c = true → isDashSpaceC c = false :=
  fun _ h => digit_fact (fun x => isDashSpaceC x = false) (by decide) h

lemma findAt_ccRe1_steps (s : List Char) (hs : allDigit s)
    (h13 : 13 ≤ s.length) :
    findAt ccRe1 none s =
      mtch (.seq (.cls isDigitC 4 (some 4)) (.seq .bnd .eps))
        (prevAfter (prevAfter (prevAfter none s 4) (s.drop 4) 4)
          ((s.drop 4).drop 4) 4)
        (((s.drop 4).drop 4).drop 4) finalK := by
  obtain ⟨d, t, rfl⟩ : ∃ d t, s = d :: t := by
    cases s with
    | nil => simp at h13
    | cons d t => exact ⟨d, t, rfl⟩
  simp only [List.length_cons] at h13
  rw [ccRe1_eq, findAt_digit_start _ d t (hs d (by simp))]
  rw [mtch_digits_exact 4 _ _ hs (by simp only [List.length_cons]; omega)]
  rw [mtch_cls0_skip _ dashSpace_digit_false _ _ _ (allDigit_drop hs 4)]
  rw [mtch_digits_exact 4 _ _ (allDigit_drop hs 4)
    (by simp only [List.length_drop, List.length_cons]; omega)]
  rw [mtch_cls0_skip _ dashSpace_digit_false _ _ _
    (allDigit_drop (allDigit_drop hs 4) 4)]
  rw [mtch_digits_exact 4 _ _ (allDigit_drop (allDigit_drop hs 4) 4)
    (by simp only [List.length_drop, List.length_cons]; omega)]
  rw [mtch_cls0_skip _ dashSpace_digit_false _ _ _
    (allDigit_drop (allDigit_drop (allDigit_drop hs 4) 4) 4)]

lemma findAt_ccRe1_16 (s : List Char) (hs : allDigit s)
    (h16 : s.length = 16) :
    ∃ c, isDigitC c = true ∧ findAt ccRe1 none s = some (some c, []) := by
  have hfix := findAt_ccRe1_steps s hs (by omega)
  have hu3 : allDigit (((s.drop 4).drop 4).drop 4) :=
    allDigit_drop (allDigit_drop (allDigit_drop hs 4) 4) 4
  have hlen3 : (((s.drop 4).drop 4).drop 4).length = 4 := by
    simp only [List.length_drop]
    omega
  obtain ⟨c, hcp, hcd⟩ := prevAfter_digit hu3
    (prevAfter (prevAfter (prevAfter none s 4) (s.drop 4) 4) ((s.drop 4).drop 4) 4)
    (j := 4) (by omega) (by omega)
  refine ⟨c, hcd, ?_⟩
  rw [hfix, mtch_digits_exact 4 _ _ hu3 (by omega)]
  rw [hcp]
  rw [show (((s.drop 4).drop 4).drop 4).drop 4 = [] from by
    rw [List.drop_eq_nil_iff]
    omega]
  exact mtch_bnd_eps_end hcd

lemma findAt_ccRe1_short (s : List Char) (hs : allDigit s)
    (h13 : 13 ≤ s.length) (h15 : s.length ≤ 15) :
    findAt ccRe1 none s = none := by
  rw [findAt_ccRe1_steps s hs h13]
  apply mtch_digits_exact_short 4 _ _
    (allDigit_drop (allDigit_drop (allDigit_drop hs 4) 4) 4)
  simp only [List.length_drop]
  omega

lemma findAt_ccRe1_long (s : List Char) (hs : allDigit s)
    (h17 : 17 ≤ s.length) (h19 : s.length ≤ 19) :
    findAt ccRe1 none s = none := by
  rw [findAt_ccRe1_steps s hs (by omega)]
  have hu3 : allDigit (((s.drop 4).drop 4).drop 4) :=
    allDigit_drop (allDigit_drop (allDigit_drop hs 4) 4) 4
  rw [mtch_digits_exact 4 _ _ hu3 (by simp only [List.length_drop]; omega)]
  obtain ⟨c, hcp, hcd⟩ := prevAfter_digit hu3
    (prevAfter (prevAfter (prevAfter none s 4) (s.drop 4) 4) ((s.drop 4).drop 4) 4)
    (j := 4) (by omega) (by simp only [List.length_drop]; omega)
  rw [hcp]
  exact mtch_seq_bnd_digit_interior .eps hcd (allDigit_drop hu3 4)
    (drop_ne_nil (by simp only [List.length_drop]; omega)) finalK

/-- A `lo ≥ 1` class that rejects digits fails on a digit string. -/
lemma mtch_cls_reject_fail (p : Char → Bool)
    (hp : ∀ c, isDigitC c = true → p c = false) (lo : Nat) (hlo : 1 ≤ lo)
    (hi : Option Nat) (rest : RE) (prev : Option Char) {u : List Char}
    (hu : allDigit u) (k : Option Char → List Char → MRes) :
    mtch (.seq (.cls p lo hi) rest) prev u k = none := by
  rw [mtch_seq, mtch_cls, runLen_digits_zero hu hp]
  exact descend_lt _ _ _ (by omega)

lemma mtch_seq_lit_digit_fail (c0 : Char) (cr : List Char) (rest : RE)
    (hnd : ∀ c, isDigitC c = true → c ≠ c0) {u : List Char} (hu : allDigit u)
    (prev : Option Char) (k : Option Char → List Char → MRes) :
    mtch (.seq (.lit (c0 :: cr)) rest) prev u k = none := by
  rw [mtch_seq]
  exact mtch_lit_digit_fail c0 cr hnd hu _ _

/-- A pattern `\b X… ` whose post-class remainder fails on every digit
suffix never matches at position 0 of a digit string. -/
lemma findAt_cls_then_fail (p : Char → Bool) (lo : Nat) (hi : Option Nat)
    (rest : RE)
    (hfail : ∀ (prev : Option Char) (u : List Char), allDigit u →
      mtch rest prev u finalK = none)
    (s : List Char) (hs : allDigit s) (hne : s ≠ []) :
    findAt (.seq .bnd (.seq (.cls p lo hi) rest)) none s = none := by
  obtain ⟨d, t, rfl⟩ : ∃ d t, s = d :: t := by
    cases s with
    | nil => exact absurd rfl hne
    | cons d t => exact ⟨d, t, rfl⟩
  rw [findAt_digit_start _ d t (hs d (by simp)), mtch_seq, mtch_cls]
  apply descend_none
  intro i _ _
  exact hfail _ _ (allDigit_drop hs i)

lemma reAlt_cons₂ (a b : RE) (rest : List RE) :
    reAlt (a :: b :: rest) = .alt a (reAlt (b :: rest)) := rfl

lemma mtch_reAlt_lits_fail :
    ∀ (ls : List (List Char)), ls ≠ [] →
      (∀ l ∈ ls, ∃ c0 cr, l = c0 :: cr ∧ ∀ c, isDigitC c = true → c ≠ c0) →
      ∀ {u : List Char}, allDigit u → ∀ (prev : Option Char)
        (k : Option Char → List Char → MRes),
        mtch (reAlt (ls.map .lit)) prev u k = none := by
  intro ls
  induction ls with
  | nil => intro h; exact absurd rfl h
  | cons l rest ih =>
    intro _ hls u hu prev k
    obtain ⟨c0, cr, rfl, hnd⟩ := hls l (by simp)
    cases rest with
    | nil =>
      show mtch (.lit (c0 :: cr)) prev u k = none
      exact mtch_lit_digit_fail c0 cr hnd hu _ _
    | cons l2 rest2 =>
      rw [List.map_cons, List.map_cons, reAlt_cons₂, mtch_alt]
      rw [mtch_lit_digit_fail c0 cr hnd hu _ _]
      rw [← List.map_cons]
      exact ih (by simp) (fun x hx => hls x (by simp [hx])) hu prev k

lemma findAt_ssnRe_none (s : List Char) (hs : allDigit s)
    (h13 : 13 ≤ s.length) : findAt ssnRe none s = none := by
  obtain ⟨d, t, rfl⟩ : ∃ d t, s = d :: t := by
    cases s with
    | nil => simp at h13
    | cons d t => exact ⟨d, t, rfl⟩
  simp only [List.length_cons] at h13
  rw [show ssnRe = .seq .bnd (.seq (.cls isDigitC 3 (some 3))
    (.seq (.cls isDashSpaceC 0 (some 1)) (.seq (.cls isDigitC 2 (some 2))
      (.seq (.cls isDashSpaceC 0 (some 1)) (.seq (.cls isDigitC 4 (some 4))
        (.seq .bnd .eps)))))) from rfl]
  rw [findAt_digit_start _ d t (hs d (by simp))]
  rw [mtch_digits_exact 3 _ _ hs (by simp only [List.length_cons]; omega)]
  rw [mtch_cls0_skip _ dashSpace_digit_false _ _ _ (allDigit_drop hs 3)]
  rw [mtch_digits_exact 2 _ _ (allDigit_drop hs 3)
    (by simp only [List.length_drop, List.length_cons]; omega)]
  rw [mtch_cls0_skip _ dashSpace_digit_false _ _ _
    (allDigit_drop (allDigit_drop hs 3) 2)]
  rw [mtch_digits_exact 4 _ _ (allDigit_drop (allDigit_drop hs 3) 2)
    (by simp only [List.length_drop, List.length_cons]; omega)]
  obtain ⟨c, hcp, hcd⟩ := prevAfter_digit
    (allDigit_drop (allDigit_drop hs 3) 2) _ (j := 4) (by omega)
    (by simp only [List.length_drop, List.length_cons]; omega)
  rw [hcp]
  exact mtch_seq_bnd_digit_interior .eps hcd
    (allDigit_drop (allDigit_drop (allDigit_drop hs 3) 2) 4)
    (drop_ne_nil (by simp only [List.length_drop, List.length_cons]; omega)) finalK

lemma findAt_emailRe_none (s : List Char) (hs : allDigit s) (hne : s ≠ []) :
    findAt emailRe none s = none := by
  rw [show emailRe = .seq .bnd (.seq (.cls isEmailLocalC 1 none)
    (.seq (.lit ['@']) (.seq (.cls isEmailDomainC 1 none)
      (.seq (.lit ['.']) (.seq (.cls isEmailTldC 2 none)
        (.seq .bnd .eps)))))) from rfl]
  exact findAt_cls_then_fail _ _ _ _
    (fun prev u hu => mtch_seq_lit_digit_fail '@' [] _
      (fun c hc => digit_fact (fun x => x ≠ '@') (by decide) hc) hu prev finalK)
    s hs hne

lemma findAt_ipv4Re_none (s : List Char) (hs : allDigit s) (hne : s ≠ []) :
    findAt ipv4Re none s = none := by
  rw [show ipv4Re = .seq .bnd (.seq (.cls isDigitC 1 (some 3))
    (.seq (.lit ['.']) (.seq (.cls isDigitC 1 (some 3))
      (.seq (.lit ['.']) (.seq (.cls isDigitC 1 (some 3))
        (.seq (.lit ['.']) (.seq (.cls isDigitC 1 (some 3))
          (.seq .bnd .eps)))))))) from rfl]
  exact findAt_cls_then_fail _ _ _ _
    (fun prev u hu => mtch_seq_lit_digit_fail '.' [] _
      (fun c hc => digit_fact (fun x => x ≠ '.') (by decide) hc) hu prev finalK)
    s hs hne

lemma findAt_ipv6Re_none (s : List Char) (hs : allDigit s) (hne : s ≠ []) :
    findAt ipv6Re none s = none := by
  rw [show ipv6Re = .seq .bnd (.seq (.cls isHexC 1 (some 4))
    (.seq (.lit [':']) (.seq (.cls isHexC 1 (some 4))
      (.seq (.lit [':']) (.seq (.cls isHexC 1 (some 4))
        (.seq (.lit [':']) (.seq (.cls isHexC 1 (some 4))
          (.seq (.lit [':']) (.seq (.cls isHexC 1 (some 4))
            (.seq (.lit [':']) (.seq (.cls isHexC 1 (some 4))
              (.seq (.lit [':']) (.seq (.cls isHexC 1 (some 4))
                (.seq (.lit [':']) (.seq (.cls isHexC 1 (some 4))
                  (.seq .bnd .eps)))))))))))))))) from rfl]
  exact findAt_cls_then_fail _ _ _ _
    (fun prev u hu => mtch_seq_lit_digit_fail ':' [] _
      (fun c hc => digit_fact (fun x => x ≠ ':') (by decide) hc) hu prev finalK)
    s hs hne

lemma findAt_macRe_none (s : List Char) (hs : allDigit s) (hne : s ≠ []) :
    findAt macRe none s = none := by
  rw [show macRe = .seq .bnd (.seq (.cls isHexC 2 (some 2))
    (.seq (.cls isColonDashC 1 (some 1)) (.seq (.cls isHexC 2 (some 2))
      (.seq (.cls isColonDashC 1 (some 1)) (.seq (.cls isHexC 2 (some 2))
        (.seq (.cls isColonDashC 1 (some 1)) (.seq (.cls isHexC 2 (some 2))
          (.seq (.cls isColonDashC 1 (some 1)) (.seq (.cls isHexC 2 (some 2))
            (.seq (.cls isColonDashC 1 (some 1)) (.seq (.cls isHexC 2 (some 2))
              (.seq .bnd .eps)))))))))))) from rfl]
  exact findAt_cls_then_fail _ _ _ _
    (fun prev u hu => mtch_cls_reject_fail isColonDashC
      (fun c hc => digit_fact (fun x => isColonDashC x = false) (by decide) hc)
      1 (by omega) _ _ prev hu finalK)
    s hs hne

lemma findAt_dob1Re_none (s : List Char) (hs : allDigit s) (hne : s ≠ []) :
    findAt dob1Re none s = none := by
  rw [show dob1Re = .seq .bnd (.seq (.cls isDigitC 1 (some 2))
    (.seq (.cls isDashSlashC 1 (some 1)) (.seq (.cls isDigitC 1 (some 2))
      (.seq (.cls isDashSlashC 1 (some 1)) (.seq (.cls isDigitC 2 (some 4))
        (.seq .bnd .eps)))))) from rfl]
  exact findAt_cls_then_fail _ _ _ _
    (fun prev u hu => mtch_cls_reject_fail isDashSlashC
      (fun c hc => digit_fact (fun x => isDashSlashC x = false) (by decide) hc)
      1 (by omega) _ _ prev hu finalK)
    s hs hne

lemma findAt_addressRe_none (s : List Char) (hs : allDigit s) (hne : s ≠ []) :
    findAt addressRe none s = none := by
  rw [show addressRe = .seq .bnd (.seq (.cls isDigitC 1 none)
    (.seq (.cls isSpaceC 1 none) (.seq (.cls isAddrNameC 1 none)
      (.seq (reAlt ((["Street", "St", "Avenue", "Ave", "Road", "Rd",
        "Boulevard", "Blvd", "Drive", "Dr", "Lane", "Ln", "Way", "Court",
        "Ct"] : List String).map fun m => .lit m.toList)) (.seq .bnd .eps)))))
    from rfl]
  exact findAt_cls_then_fail _ _ _ _
    (fun prev u hu => mtch_cls_reject_fail isSpaceC
      (fun c hc => digit_fact (fun x => isSpaceC x = false) (by decide) hc)
      1 (by omega) _ _ prev hu finalK)
    s hs hne

lemma findAt_upper_first_none (lo : Nat) (hlo : 1 ≤ lo) (hi : Option Nat)
    (rest : RE) (s : List Char) (hs : allDigit s) (hne : s ≠ []) :
    findAt (.seq .bnd (.seq (.cls isUpperC lo hi) rest)) none s = none := by
  obtain ⟨d, t, rfl⟩ : ∃ d t, s = d :: t := by
    cases s with
    | nil => exact absurd rfl hne
    | cons d t => exact ⟨d, t, rfl⟩
  rw [findAt_digit_start _ d t (hs d (by simp))]
  exact mtch_cls_reject_fail isUpperC
    (fun c hc => digit_fact (fun x => isUpperC x = false) (by decide) hc)
    lo hlo hi rest _ hs finalK

lemma findAt_passport1Re_none (s : List Char) (hs : allDigit s)
    (hne : s ≠ []) : findAt passport1Re none s = none :=
  findAt_upper_first_none 1 (by omega) (some 2) _ s hs hne

lemma findAt_dl1Re_none (s : List Char) (hs : allDigit s) (hne : s ≠ []) :
    findAt dl1Re none s = none :=
  findAt_upper_first_none 1 (by omega) (some 1) _ s hs hne

lemma findAt_dl2Re_none (s : List Char) (hs : allDigit s) (hne : s ≠ []) :
    findAt dl2Re none s = none := by
  rw [show dl2Re = .seq .bnd (.seq (.cls isDigitC 7 (some 12))
    (.seq (.cls isUpperC 1 (some 1)) (.seq .bnd .eps))) from rfl]
  exact findAt_cls_then_fail _ _ _ _
    (fun prev u hu => mtch_cls_reject_fail isUpperC
      (fun c hc => digit_fact (fun x => isUpperC x = false) (by decide) hc)
      1 (by omega) _ _ prev hu finalK)
    s hs hne

lemma findAt_mrn1Re_none (s : List Char) (hs : allDigit s) (hne : s ≠ []) :
    findAt mrn1Re none s = none := by
  obtain ⟨d, t, rfl⟩ : ∃ d t, s = d :: t := by
    cases s with
    | nil => exact absurd rfl hne
    | cons d t => exact ⟨d, t, rfl⟩
  rw [show mrn1Re = .seq .bnd (.seq (.lit ('M' :: ['R', 'N']))
    (.seq (.cls isColonSpaceC 0 (some 1)) (.seq (.cls isDigitC 6 (some 10))
      (.seq .bnd .eps)))) from rfl]
  rw [findAt_digit_start _ d t (hs d (by simp))]
  exact mtch_seq_lit_digit_fail 'M' ['R', 'N'] _
    (fun c hc => digit_fact (fun x => x ≠ 'M') (by decide) hc) hs none finalK

lemma findAt_mrn2Re_none (s : List Char) (hs : allDigit s) (hne : s ≠ []) :
    findAt mrn2Re none s = none := by
  rw [show mrn2Re = .seq .bnd (.seq (.cls isDigitC 2 (some 2))
    (.seq (.cls isUpperC 1 (some 1)) (.seq (.cls isDigitC 5 (some 5))
      (.seq (.cls isUpperC 1 (some 1)) (.seq (.cls isDigitC 2 (some 2))
        (.seq .bnd .eps)))))) from rfl]
  exact findAt_cls_then_fail _ _ _ _
    (fun prev u hu => mtch_cls_reject_fail isUpperC
      (fun c hc => digit_fact (fun x => isUpperC x = false) (by decide) hc)
      1 (by omega) _ _ prev hu finalK)
    s hs hne

lemma findAt_dob2Re_none (s : List Char) (hs : allDigit s) (hne : s ≠ []) :
    findAt dob2Re none s = none := by
  obtain ⟨d, t, rfl⟩ : ∃ d t, s = d :: t := by
    cases s with
    | nil => exact absurd rfl hne
    | cons d t => exact ⟨d, t, rfl⟩
  rw [show dob2Re = .seq .bnd (.seq (reAlt ((["Jan", "Feb", "Mar", "Apr",
    "May", "Jun", "Jul", "Aug", "Sep", "Oct", "Nov", "Dec"] :
      List String).map fun m => .lit m.toList))
    (.seq (.cls isLowerC 0 none) (.seq (.cls isSpaceC 1 none)
      (.seq (.cls isDigitC 1 (some 2)) (.seq (.cls isCommaC 0 (some 1))
        (.seq (.cls isSpaceC 1 none) (.seq (.cls isDigitC 4 (some 4))
          (.seq .bnd .eps)))))))) from rfl]
  rw [findAt_digit_start _ d t (hs d (by simp)), mtch_seq]
  rw [show ((["Jan", "Feb", "Mar", "Apr", "May", "Jun", "Jul", "Aug", "Sep",
    "Oct", "Nov", "Dec"] : List String).map fun m => (.lit m.toList : RE)) =
    (["Jan".toList, "Feb".toList, "Mar".toList, "Apr".toList, "May".toList,
      "Jun".toList, "Jul".toList, "Aug".toList, "Sep".toList, "Oct".toList,
      "Nov".toList, "Dec".toList].map .lit) from rfl]
  apply mtch_reAlt_lits_fail _ (by simp) _ hs
  intro l hl
  simp only [List.mem_cons, List.not_mem_nil, or_false] at hl
  rcases hl with rfl | rfl | rfl | rfl | rfl | rfl | rfl | rfl | rfl | rfl |
    rfl | rfl
  · exact ⟨'J', ['a', 'n'], rfl,
      fun c hc => digit_fact (fun x => x ≠ 'J') (by decide) hc⟩
  · exact ⟨'F', ['e', 'b'], rfl,
      fun c hc => digit_fact (fun x => x ≠ 'F') (by decide) hc⟩
  · exact ⟨'M', ['a', 'r'], rfl,
      fun c hc => digit_fact (fun x => x ≠ 'M') (by decide) hc⟩
  · exact ⟨'A', ['p', 'r'], rfl,
      fun c hc => digit_fact (fun x => x ≠ 'A') (by decide) hc⟩
  · exact ⟨'M', ['a', 'y'], rfl,
      fun c hc => digit_fact (fun x => x ≠ 'M') (by decide) hc⟩
  · exact ⟨'J', ['u', 'n'], rfl,
      fun c hc => digit_fact (fun x => x ≠ 'J') (by decide) hc⟩
  · exact ⟨'J', ['u', 'l'], rfl,
      fun c hc => digit_fact (fun x => x ≠ 'J') (by decide) hc⟩
  · exact ⟨'A', ['u', 'g'], rfl,
      fun c hc => digit_fact (fun x => x ≠ 'A') (by decide) hc⟩
  · exact ⟨'S', ['e', 'p'], rfl,
      fun c hc => digit_fact (fun x => x ≠ 'S') (by decide) hc⟩
  · exact ⟨'O', ['c', 't'], rfl,
      fun c hc => digit_fact (fun x => x ≠ 'O') (by decide) hc⟩
  · exact ⟨'N', ['o', 'v'], rfl,
      fun c hc => digit_fact (fun x => x ≠ 'N') (by decide) hc⟩
  · exact ⟨'D', ['e', 'c'], rfl,
      fun c hc => digit_fact (fun x => x ≠ 'D') (by decide) hc⟩

lemma findAt_api1Re_none (s : List Char) (hs : allDigit s) (hne : s ≠ []) :
    findAt api1Re none s = none := by
  obtain ⟨d, t, rfl⟩ : ∃ d t, s = d :: t := by
    cases s with
    | nil => exact absurd rfl hne
    | cons d t => exact ⟨d, t, rfl⟩
  rw [show api1Re = .seq .bnd (.seq (.alt
    (.seq (.lit ('a' :: ['p', 'i'])) (.seq (.cls isUnderDashC 0 (some 1))
      (.seq (.lit ('k' :: ['e', 'y'])) .eps)))
    (reAlt (["token".toList, "secret".toList, "auth".toList].map .lit)))
    (.seq (.cls isUnderDashC 0 (some 1)) (.seq (.cls isAlnumC 16 none)
      (.seq .bnd .eps)))) from rfl]
  rw [findAt_digit_start _ d t (hs d (by simp)), mtch_seq, mtch_alt]
  rw [mtch_seq_lit_digit_fail 'a' ['p', 'i'] _
    (fun c hc => digit_fact (fun x => x ≠ 'a') (by decide) hc) hs none _]
  apply mtch_reAlt_lits_fail _ (by simp) _ hs
  intro l hl
  simp only [List.mem_cons, List.not_mem_nil, or_false] at hl
  rcases hl with rfl | rfl | rfl
  · exact ⟨'t', "oken".toList, rfl,
      fun c hc => digit_fact (fun x => x ≠ 't') (by decide) hc⟩
  · exact ⟨'s', "ecret".toList, rfl,
      fun c hc => digit_fact (fun x => x ≠ 's') (by decide) hc⟩
  · exact ⟨'a', "uth".toList, rfl,
      fun c hc => digit_fact (fun x => x ≠ 'a') (by decide) hc⟩

lemma findAt_api2Re_none (s : List Char) (hs : allDigit s) (hne : s ≠ []) :
    findAt api2Re none s = none := by
  obtain ⟨d, t, rfl⟩ : ∃ d t, s = d :: t := by
    cases s with
    | nil => exact absurd rfl hne
    | cons d t => exact ⟨d, t, rfl⟩
  rw [show api2Re = .seq .bnd (.seq (.lit ('s' :: ['k', '-']))
    (.seq (.cls isAlnumC 20 none) (.seq .bnd .eps))) from rfl]
  rw [findAt_digit_start _ d t (hs d (by simp))]
  exact mtch_seq_lit_digit_fail 's' ['k', '-'] _
    (fun c hc => digit_fact (fun x => x ≠ 's') (by decide) hc) hs none finalK

lemma findAt_api3Re_none (s : List Char) (hs : allDigit s) (hne : s ≠ []) :
    findAt api3Re none s = none := by
  obtain ⟨d, t, rfl⟩ : ∃ d t, s = d :: t := by
    cases s with
    | nil => exact absurd rfl hne
    | cons d t => exact ⟨d, t, rfl⟩
  rw [show api3Re = .seq .bnd (.seq (.lit ('g' :: ['h', 'p', '_']))
    (.seq (.cls isAlnumC 36 (some 36)) (.seq .bnd .eps))) from rfl]
  rw [findAt_digit_start _ d t (hs d (by simp))]
  exact mtch_seq_lit_digit_fail 'g' ['h', 'p', '_'] _
    (fun c hc => digit_fact (fun x => x ≠ 'g') (by decide) hc) hs none finalK

lemma findAt_api4Re_none (s : List Char) (hs : allDigit s) (hne : s ≠ []) :
    findAt api4Re none s = none := by
  obtain ⟨d, t, rfl⟩ : ∃ d t, s = d :: t := by
    cases s with
    | nil => exact absurd rfl hne
    | cons d t => exact ⟨d, t, rfl⟩
  rw [show api4Re = .seq .bnd (.seq (.lit ('x' :: ['o', 'x']))
    (.seq (.cls isBaprsC 1 (some 1)) (.seq (.lit ['-'])
      (.seq (.cls isAlnumDashC 10 none) (.seq .bnd .eps))))) from rfl]
  rw [findAt_digit_start _ d t (hs d (by simp))]
  exact mtch_seq_lit_digit_fail 'x' ['o', 'x'] _
    (fun c hc => digit_fact (fun x => x ≠ 'x') (by decide) hc) hs none finalK

/-- The fixed 10-digit body of `phoneRe1` (after the optional country-code
group) fails on a digit string of at least 11 characters: it consumes
exactly ten digits and the closing `\b` then sits between two digits. -/
lemma mtch_phoneRest_fail (prev : Option Char) (u : List Char)
    (hu : allDigit u) (h11 : 11 ≤ u.length) :
    mtch (.seq (.cls isLParenC 0 (some 1)) (.seq (.cls isDigitC 3 (some 3))
      (.seq (.cls isRParenC 0 (some 1)) (.seq (.cls isDotDashSpaceC 0 (some 1))
        (.seq (.cls isDigitC 3 (some 3)) (.seq (.cls isDotDashSpaceC 0 (some 1))
          (.seq (.cls isDigitC 4 (some 4)) (.seq .bnd .eps))))))))
      prev u finalK = none := by
  rw [mtch_cls0_skip _
    (fun c hc => digit_fact (fun x => isLParenC x = false) (by decide) hc)
    _ _ _ hu]
  rw [mtch_digits_exact 3 _ _ hu (by omega)]
  rw [mtch_cls0_skip _
    (fun c hc => digit_fact (fun x => isRParenC x = false) (by decide) hc)
    _ _ _ (allDigit_drop hu 3)]
  rw [mtch_cls0_skip _
    (fun c hc => digit_fact (fun x => isDotDashSpaceC x = false) (by decide) hc)
    _ _ _ (allDigit_drop hu 3)]
  rw [mtch_digits_exact 3 _ _ (allDigit_drop hu 3)
    (by simp only [List.length_drop]; omega)]
  rw [mtch_cls0_skip _
    (fun c hc => digit_fact (fun x => isDotDashSpaceC x = false) (by decide) hc)
    _ _ _ (allDigit_drop (allDigit_drop hu 3) 3)]
  rw [mtch_digits_exact 4 _ _ (allDigit_drop (allDigit_drop hu 3) 3)
    (by simp only [List.length_drop]; omega)]
  obtain ⟨c, hcp, hcd⟩ := prevAfter_digit (allDigit_drop (allDigit_drop hu 3) 3)
    _ (j := 4) (by omega) (by simp only [List.length_drop]; omega)
  rw [hcp]
  exact mtch_seq_bnd_digit_interior .eps hcd
    (allDigit_drop (allDigit_drop (allDigit_drop hu 3) 3) 4)
    (drop_ne_nil (by simp only [List.length_drop]; omega)) finalK

lemma findAt_phoneRe1_none (s : List Char) (hs : allDigit s)
    (h13 : 13 ≤ s.length) : findAt phoneRe1 none s = none := by
  obtain ⟨d, t, rfl⟩ : ∃ d t, s = d :: t := by
    cases s with
    | nil => simp at h13
    | cons d t => exact ⟨d, t, rfl⟩
  simp only [List.length_cons] at h13
  rw [show phoneRe1 = .seq .bnd (.seq (.opt (.seq (.cls isPlusC 0 (some 1))
    (.seq (.lit ['1']) (.seq (.cls isDotDashSpaceC 0 (some 1)) .eps))))
    (.seq (.cls isLParenC 0 (some 1)) (.seq (.cls isDigitC 3 (some 3))
      (.seq (.cls isRParenC 0 (some 1)) (.seq (.cls isDotDashSpaceC 0 (some 1))
        (.seq (.cls isDigitC 3 (some 3)) (.seq (.cls isDotDashSpaceC 0 (some 1))
          (.seq (.cls isDigitC 4 (some 4)) (.seq .bnd .eps))))))))) from rfl]
  rw [findAt_digit_start _ d t (hs d (by simp))]
  rw [mtch_seq, mtch_opt]
  rw [mtch_cls0_skip _
    (fun c hc => digit_fact (fun x => isPlusC x = false) (by decide) hc)
    _ _ _ hs]
  rw [mtch_seq, mtch_lit]
  rw [show (d :: t).take ([('1' : Char)].length) = [d] from rfl]
  by_cases h1 : d = '1'
  · subst h1
    rw [if_pos rfl]
    have hscr : mtch (.seq (.cls isDotDashSpaceC 0 (some 1)) .eps) (some '1') t
        (fun p' s' => mtch (.seq (.cls isLParenC 0 (some 1))
          (.seq (.cls isDigitC 3 (some 3)) (.seq (.cls isRParenC 0 (some 1))
            (.seq (.cls isDotDashSpaceC 0 (some 1))
              (.seq (.cls isDigitC 3 (some 3))
                (.seq (.cls isDotDashSpaceC 0 (some 1))
                  (.seq (.cls isDigitC 4 (some 4)) (.seq .bnd .eps)))))))) p' s'
          finalK) = none := by
      rw [mtch_cls0_skip _
        (fun c hc => digit_fact (fun x => isDotDashSpaceC x = false) (by decide) hc)
        _ _ _ (allDigit_tail hs), mtch_eps]
      exact mtch_phoneRest_fail (some '1') t (allDigit_tail hs) (by omega)
    rw [show (('1' : Char) :: t).drop ([('1' : Char)].length) = t from rfl]
    simp only [List.getLast?, List.getLast_singleton]
    rw [hscr]
    exact mtch_phoneRest_fail none ('1' :: t) hs
      (by simp only [List.length_cons]; omega)
  · rw [if_neg (by simpa using h1)]
    exact mtch_phoneRest_fail none (d :: t) hs
      (by simp only [List.length_cons]; omega)

lemma ne_nil_of_len13 {s : List Char} (h13 : 13 ≤ s.length) : s ≠ [] := by
  intro h
  subst h
  simp at h13

lemma find_iter_ssn (s : List Char) (hs : allDigit s) (h13 : 13 ≤ s.length) :
    find_iter ssnRe s = [] := by
  exact find_iter_digits_none _ (fun _ _ => by rfl) s hs (findAt_ssnRe_none s hs h13)

lemma find_iter_email (s : List Char) (hs : allDigit s) (h13 : 13 ≤ s.length) :
    find_iter emailRe s = [] := by
  exact find_iter_digits_none _ (fun _ _ => by rfl) s hs
    (findAt_emailRe_none s hs (ne_nil_of_len13 h13))

lemma find_iter_phone1 (s : List Char) (hs : allDigit s) (h13 : 13 ≤ s.length) :
    find_iter phoneRe1 s = [] := by
  exact find_iter_digits_none _ (fun _ _ => by rfl) s hs
    (findAt_phoneRe1_none s hs h13)

lemma find_iter_ipv4 (s : List Char) (hs : allDigit s) (h13 : 13 ≤ s.length) :
    find_iter ipv4Re s = [] := by
  exact find_iter_digits_none _ (fun _ _ => by rfl) s hs
    (findAt_ipv4Re_none s hs (ne_nil_of_len13 h13))

lemma find_iter_ipv6 (s : List Char) (hs : allDigit s) (h13 : 13 ≤ s.length) :
    find_iter ipv6Re s = [] := by
  exact find_iter_digits_none _ (fun _ _ => by rfl) s hs
    (findAt_ipv6Re_none s hs (ne_nil_of_len13 h13))

lemma find_iter_mac (s : List Char) (hs : allDigit s) (h13 : 13 ≤ s.length) :
    find_iter macRe s = [] := by
  exact find_iter_digits_none _ (fun _ _ => by rfl) s hs
    (findAt_macRe_none s hs (ne_nil_of_len13 h13))

lemma find_iter_dob1 (s : List Char) (hs : allDigit s) (h13 : 13 ≤ s.length) :
    find_iter dob1Re s = [] := by
  exact find_iter_digits_none _ (fun _ _ => by rfl) s hs
    (findAt_dob1Re_none s hs (ne_nil_of_len13 h13))

lemma find_iter_dob2 (s : List Char) (hs : allDigit s) (h13 : 13 ≤ s.length) :
    find_iter dob2Re s = [] := by
  exact find_iter_digits_none _ (fun _ _ => by rfl) s hs
    (findAt_dob2Re_none s hs (ne_nil_of_len13 h13))

lemma find_iter_address (s : List Char) (hs : allDigit s)
    (h13 : 13 ≤ s.length) : find_iter addressRe s = [] := by
  exact find_iter_digits_none _ (fun _ _ => by rfl) s hs
    (findAt_addressRe_none s hs (ne_nil_of_len13 h13))

lemma find_iter_passport1 (s : List Char) (hs : allDigit s)
    (h13 : 13 ≤ s.length) : find_iter passport1Re s = [] := by
  exact find_iter_digits_none _ (fun _ _ => by rfl) s hs
    (findAt_passport1Re_none s hs (ne_nil_of_len13 h13))

lemma find_iter_passport2 (s : List Char) (hs : allDigit s)
    (h13 : 13 ≤ s.length) : find_iter passport2Re s = [] := by
  exact find_iter_digits_none _ (fun _ _ => by rfl) s hs
    (findAt_passport2Re_none s hs h13)

lemma find_iter_dl1 (s : List Char) (hs : allDigit s) (h13 : 13 ≤ s.length) :
    find_iter dl1Re s = [] := by
  exact find_iter_digits_none _ (fun _ _ => by rfl) s hs
    (findAt_dl1Re_none s hs (ne_nil_of_len13 h13))

lemma find_iter_dl2 (s : List Char) (hs : allDigit s) (h13 : 13 ≤ s.length) :
    find_iter dl2Re s = [] := by
  exact find_iter_digits_none _ (fun _ _ => by rfl) s hs
    (findAt_dl2Re_none s hs (ne_nil_of_len13 h13))

lemma find_iter_mrn1 (s : List Char) (hs : allDigit s) (h13 : 13 ≤ s.length) :
    find_iter mrn1Re s = [] := by
  exact find_iter_digits_none _ (fun _ _ => by rfl) s hs
    (findAt_mrn1Re_none s hs (ne_nil_of_len13 h13))

lemma find_iter_mrn2 (s : List Char) (hs : allDigit s) (h13 : 13 ≤ s.length) :
    find_iter mrn2Re s = [] := by
  exact find_iter_digits_none _ (fun _ _ => by rfl) s hs
    (findAt_mrn2Re_none s hs (ne_nil_of_len13 h13))

lemma find_iter_api1 (s : List Char) (hs : allDigit s) (h13 : 13 ≤ s.length) :
    find_iter api1Re s = [] := by
  exact find_iter_digits_none _ (fun _ _ => by rfl) s hs
    (findAt_api1Re_none s hs (ne_nil_of_len13 h13))

lemma find_iter_api2 (s : List Char) (hs : allDigit s) (h13 : 13 ≤ s.length) :
    find_iter api2Re s = [] := by
  exact find_iter_digits_none _ (fun _ _ => by rfl) s hs
    (findAt_api2Re_none s hs (ne_nil_of_len13 h13))

lemma find_iter_api3 (s : List Char) (hs : allDigit s) (h13 : 13 ≤ s.length) :
    find_iter api3Re s = [] := by
  exact find_iter_digits_none _ (fun _ _ => by rfl) s hs
    (findAt_api3Re_none s hs (ne_nil_of_len13 h13))

lemma find_iter_api4 (s : List Char) (hs : allDigit s) (h13 : 13 ≤ s.length) :
    find_iter api4Re s = [] := by
  exact find_iter_digits_none _ (fun _ _ => by rfl) s hs
    (findAt_api4Re_none s hs (ne_nil_of_len13 h13))

lemma find_iter_ccRe2_whole (s : List Char) (hs : allDigit s)
    (h13 : 13 ≤ s.length) (h19 : s.length ≤ 19) :
    find_iter ccRe2 s = [(0, s.length)] := by
  obtain ⟨c, hcd, h0⟩ := findAt_ccRe2 s hs h13 h19
  exact find_iter_digits_whole _ (fun _ _ => by rfl) s hs (ne_nil_of_len13 h13)
    c hcd h0

lemma find_iter_ccRe1_eq16 (s : List Char) (hs : allDigit s)
    (h16 : s.length = 16) : find_iter ccRe1 s = [(0, s.length)] := by
  obtain ⟨c, hcd, h0⟩ := findAt_ccRe1_16 s hs h16
  exact find_iter_digits_whole _ (fun _ _ => by rfl) s hs
    (ne_nil_of_len13 (by omega)) c hcd h0

lemma find_iter_ccRe1_ne16 (s : List Char) (hs : allDigit s)
    (h13 : 13 ≤ s.length) (h19 : s.length ≤ 19) (hne16 : s.length ≠ 16) :
    find_iter ccRe1 s = [] := by
  by_cases h15 : s.length ≤ 15
  · exact find_iter_digits_none _ (fun _ _ => by rfl) s hs
      (findAt_ccRe1_short s hs h13 h15)
  · exact find_iter_digits_none _ (fun _ _ => by rfl) s hs
      (findAt_ccRe1_long s hs (by omega) h19)

lemma find_iter_bank_le17 (s : List Char) (hs : allDigit s)
    (h13 : 13 ≤ s.length) (h17 : s.length ≤ 17) :
    find_iter bankRe s = [(0, s.length)] := by
  obtain ⟨c, hcd, h0⟩ := findAt_bankRe_some s hs h13 h17
  exact find_iter_digits_whole _ (fun _ _ => by rfl) s hs (ne_nil_of_len13 h13)
    c hcd h0

lemma find_iter_bank_ge18 (s : List Char) (hs : allDigit s)
    (h18 : 18 ≤ s.length) : find_iter bankRe s = [] := by
  exact find_iter_digits_none _ (fun _ _ => by rfl) s hs
    (findAt_bankRe_none s hs h18)

lemma find_iter_phone2_match (d : Char) (t : List Char)
    (hs : allDigit (d :: t)) (hnz : isNonZeroDigitC d = true)
    (h13 : 13 ≤ (d :: t).length) (h15 : (d :: t).length ≤ 15) :
    find_iter phoneRe2 (d :: t) = [(0, (d :: t).length)] := by
  obtain ⟨c, hcd, h0⟩ := findAt_phoneRe2_some d t hs hnz h13 h15
  exact find_iter_digits_whole _ (fun _ _ => by rfl) _ hs (by simp) c hcd h0

lemma find_iter_phone2_nomatch (d : Char) (t : List Char)
    (hs : allDigit (d :: t))
    (h : isNonZeroDigitC d = false ∨ 16 ≤ (d :: t).length) :
    find_iter phoneRe2 (d :: t) = [] := by
  rcases h with hz | h16
  · exact find_iter_digits_none _ (fun _ _ => by rfl) _ hs
      (findAt_phoneRe2_zero d t hs hz)
  · exact find_iter_digits_none _ (fun _ _ => by rfl) _ hs
      (findAt_phoneRe2_long d t hs h16)

/-- The per-pattern scan-and-filter fold inside `detect` (its `found`
binding), split out so the retained matches can be computed separately
from the overlap removal. -/
def detectFound (validate_credit_cards : Bool) (normalized : List Char) :
    List PIIMatch :=
  build_patterns.foldl
    (fun acc pr =>
      acc ++ (find_iter pr.2 normalized).filterMap fun span =>
        let matched_text := sliceChars normalized span.1 span.2
        if pr.1 = .CreditCard && validate_credit_cards &&
            ! luhn_check (matched_text.filter isDigitC) then none
        else some ⟨pr.1, matched_text, span.1, span.2,
          calculate_confidence pr.1 matched_text⟩)
    []

lemma detect_eq (v : Bool) (s : List Char) :
    detect v s = remove_overlaps (sortByStart (detectFound v s)) := rfl

lemma sliceChars_whole (s : List Char) : sliceChars s 0 s.length = s := by
  simp [sliceChars]

lemma conf_phone_le (text : List Char) :
    calculate_confidence .Phone text ≤ 95 := by
  simp only [calculate_confidence]
  split <;> omega

lemma insertByStart_append (m : PIIMatch) (acc : List PIIMatch)
    (h : ∀ x ∈ acc, x.start ≤ m.start) : insertByStart m acc = acc ++ [m] := by
  induction acc with
  | nil => rfl
  | cons x xs ih =>
    unfold insertByStart
    rw [if_pos (h x (by simp))]
    rw [ih (fun y hy => h y (by simp [hy]))]
    rfl

/-- Sorting by start is the identity when all starts coincide (here 0). -/
lemma sortByStart_id {l : List PIIMatch} (h : ∀ m ∈ l, m.start = 0) :
    sortByStart l = l := by
  have aux : ∀ (l acc : List PIIMatch), (∀ m ∈ l, m.start = 0) →
      (∀ x ∈ acc, x.start = 0) →
      l.foldl (fun acc m => insertByStart m acc) acc = acc ++ l := by
    intro l
    induction l with
    | nil =>
      intro acc _ _
      simp
    | cons m ms ih =>
      intro acc hl hacc
      rw [List.foldl_cons]
      rw [insertByStart_append m acc
        (fun x hx => by rw [hacc x hx, hl m (by simp)])]
      have hacc' : ∀ x ∈ acc ++ [m], x.start = 0 := by
        intro x hx
        rcases List.mem_append.mp hx with h1 | h1
        · exact hacc x h1
        · simp only [List.mem_singleton] at h1
          subst h1
          exact hl _ (by simp)
      rw [ih (acc ++ [m]) (fun x hx => hl x (by simp [hx])) hacc']
      simp
  simpa using aux l [] h (by simp)

lemma removeOverlapsGo_cons (current m : PIIMatch) (ms : List PIIMatch) :
    removeOverlapsGo current (m :: ms) =
      if m.start < current.end_ then
        removeOverlapsGo
          (if current.confidence < m.confidence then m else current) ms
      else current :: removeOverlapsGo m ms := rfl

/-- If every later match overlaps the current one and none has strictly
higher confidence, the loop keeps exactly the current match. -/
lemma removeOverlapsGo_keep (current : PIIMatch) (ms : List PIIMatch)
    (h : ∀ m ∈ ms, m.start < current.end_ ∧
      m.confidence ≤ current.confidence) :
    removeOverlapsGo current ms = [current] := by
  induction ms generalizing current with
  | nil => rfl
  | cons m ms ih =>
    obtain ⟨h1, h2⟩ := h m (by simp)
    rw [removeOverlapsGo_cons, if_pos h1, if_neg (by omega)]
    exact ih current (fun x hx => h x (by simp [hx]))

/-- Every match the loop emits is one of its inputs. -/
lemma removeOverlapsGo_mem (current : PIIMatch) (ms : List PIIMatch) :
    ∀ x ∈ removeOverlapsGo current ms, x ∈ current :: ms := by
  induction ms generalizing current with
  | nil =>
    intro x hx
    rw [show removeOverlapsGo current [] = [current] from rfl] at hx
    simpa using hx
  | cons m ms ih =>
    intro x hx
    rw [removeOverlapsGo_cons] at hx
    by_cases h1 : m.start < current.end_
    · rw [if_pos h1] at hx
      have hm := ih _ x hx
      by_cases h2 : current.confidence < m.confidence
      · rw [if_pos h2] at hm
        simp only [List.mem_cons] at hm ⊢
        tauto
      · rw [if_neg h2] at hm
        simp only [List.mem_cons] at hm ⊢
        tauto
    · rw [if_neg h1] at hx
      rcases List.mem_cons.mp hx with rfl | hx2
      · simp
      · have hm := ih m x hx2
        simp only [List.mem_cons] at hm ⊢
        tauto

lemma remove_overlaps_one (m : PIIMatch) : remove_overlaps [m] = [m] := rfl

lemma remove_overlaps_cons₂ (a b : PIIMatch) (l : List PIIMatch) :
    remove_overlaps (a :: b :: l) = removeOverlapsGo a (b :: l) := rfl

/-- C7: for every all-digit string of 13 to 19 digits (the credit-card
pattern shapes `\b\d{13,19}\b` and, at 16 digits, the grouped pattern),
`detect` with credit-card validation enabled reports a `CreditCard` match
if and only if the string passes the Luhn checksum: if `luhn_check`
succeeds a `CreditCard` match is in the result, and if it fails no match
of the result is a `CreditCard`. -/
theorem C7_luhn_detect_credit_card (s : List Char) (hs : allDigit s)
    (h13 : 13 ≤ s.length) (h19 : s.length ≤ 19) :
    (luhn_check s = true →
      ∃ m ∈ detect true s, m.pii_type = PIIType.CreditCard) ∧
    (luhn_check s = false →
      ∀ m ∈ detect true s, m.pii_type ≠ PIIType.CreditCard) := by
  obtain ⟨d, t, rfl⟩ : ∃ d t, s = d :: t := by
    cases s with
    | nil => simp at h13
    | cons d t => exact ⟨d, t, rfl⟩
  have hfilt : List.filter isDigitC (d :: t) = d :: t :=
    List.filter_eq_self.mpr hs
  have hpos : 0 < (d :: t).length := by simp
  have eSsn := find_iter_ssn _ hs h13
  have eEmail := find_iter_email _ hs h13
  have ePh1 := find_iter_phone1 _ hs h13
  have eIp4 := find_iter_ipv4 _ hs h13
  have eIp6 := find_iter_ipv6 _ hs h13
  have eMac := find_iter_mac _ hs h13
  have eDob1 := find_iter_dob1 _ hs h13
  have eDob2 := find_iter_dob2 _ hs h13
  have eAddr := find_iter_address _ hs h13
  have ePp1 := find_iter_passport1 _ hs h13
  have ePp2 := find_iter_passport2 _ hs h13
  have eDl1 := find_iter_dl1 _ hs h13
  have eDl2 := find_iter_dl2 _ hs h13
  have eMrn1 := find_iter_mrn1 _ hs h13
  have eMrn2 := find_iter_mrn2 _ hs h13
  have eApi1 := find_iter_api1 _ hs h13
  have eApi2 := find_iter_api2 _ hs h13
  have eApi3 := find_iter_api3 _ hs h13
  have eApi4 := find_iter_api4 _ hs h13
  have eCc2 := find_iter_ccRe2_whole _ hs h13 h19
  have dPh : decide (PIIType.Phone = PIIType.CreditCard) = false := rfl
  have dBk : decide (PIIType.BankAccount = PIIType.CreditCard) = false := rfl
  have dCc : calculate_confidence PIIType.CreditCard (d :: t) = 95 := rfl
  have dBc : calculate_confidence PIIType.BankAccount (d :: t) = 75 := rfl
  constructor
  · intro hl
    by_cases h16 : (d :: t).length = 16
    · have eCc1 := find_iter_ccRe1_eq16 _ hs h16
      have eBank := find_iter_bank_le17 _ hs h13 (by omega)
      have ePh2 := find_iter_phone2_nomatch d t hs (Or.inr (by omega))
      have hfound : detectFound true (d :: t) =
          [⟨.CreditCard, d :: t, 0, (d :: t).length, 95⟩,
           ⟨.CreditCard, d :: t, 0, (d :: t).length, 95⟩,
           ⟨.BankAccount, d :: t, 0, (d :: t).length, 75⟩] := by
        simp only [detectFound, build_patterns, List.foldl_cons,
          List.foldl_nil, eCc1, eCc2, eSsn, eEmail, ePh1, ePh2, eIp4, eIp6,
          eMac, eDob1, eDob2, eAddr, ePp1, ePp2, eDl1, eDl2, eBank, eMrn1,
          eMrn2, eApi1, eApi2, eApi3, eApi4, sliceChars_whole, hfilt, hl, dPh, dBk, dCc, dBc,
              List.filterMap_cons, List.filterMap_nil, List.append_nil,
              List.nil_append, List.cons_append, decide_True, Bool.true_and,
              Bool.and_true, Bool.false_and, Bool.and_false, Bool.not_true,
              Bool.not_false, Bool.false_eq_true, eq_self_iff_true, if_true,
              if_false]
      rw [detect_eq, hfound,
        sortByStart_id (by
          intro m hm
          simp only [List.mem_cons, List.not_mem_nil, or_false] at hm
          rcases hm with rfl | rfl | rfl <;> rfl),
        remove_overlaps_cons₂,
        removeOverlapsGo_keep _ _ (by
          intro m hm
          simp only [List.mem_cons, List.not_mem_nil, or_false] at hm
          rcases hm with rfl | rfl <;> exact ⟨hpos, by simp⟩)]
      exact ⟨⟨.CreditCard, d :: t, 0, (d :: t).length, 95⟩, by simp, rfl⟩
    · by_cases h15 : (d :: t).length ≤ 15
      · have eCc1 := find_iter_ccRe1_ne16 _ hs h13 h19 h16
        have eBank := find_iter_bank_le17 _ hs h13 (by omega)
        by_cases hnz : isNonZeroDigitC d = true
        · have ePh2 := find_iter_phone2_match d t hs hnz h13 h15
          have hfound : detectFound true (d :: t) =
              [⟨.CreditCard, d :: t, 0, (d :: t).length, 95⟩,
               ⟨.Phone, d :: t, 0, (d :: t).length,
                 calculate_confidence .Phone (d :: t)⟩,
               ⟨.BankAccount, d :: t, 0, (d :: t).length, 75⟩] := by
            simp only [detectFound, build_patterns, List.foldl_cons,
              List.foldl_nil, eCc1, eCc2, eSsn, eEmail, ePh1, ePh2, eIp4,
              eIp6, eMac, eDob1, eDob2, eAddr, ePp1, ePp2, eDl1, eDl2, eBank,
              eMrn1, eMrn2, eApi1, eApi2, eApi3, eApi4, sliceChars_whole, hfilt, hl, dPh, dBk, dCc, dBc,
              List.filterMap_cons, List.filterMap_nil, List.append_nil,
              List.nil_append, List.cons_append, decide_True, Bool.true_and,
              Bool.and_true, Bool.false_and, Bool.and_false, Bool.not_true,
              Bool.not_false, Bool.false_eq_true, eq_self_iff_true, if_true,
              if_false]
          rw [detect_eq, hfound,
            sortByStart_id (by
              intro m hm
              simp only [List.mem_cons, List.not_mem_nil, or_false] at hm
              rcases hm with rfl | rfl | rfl <;> rfl),
            remove_overlaps_cons₂,
            removeOverlapsGo_keep _ _ (by
              intro m hm
              simp only [List.mem_cons, List.not_mem_nil, or_false] at hm
              rcases hm with rfl | rfl
              · exact ⟨hpos, conf_phone_le _⟩
              · exact ⟨hpos, by simp⟩)]
          exact ⟨⟨.CreditCard, d :: t, 0, (d :: t).length, 95⟩, by simp, rfl⟩
        · have hz : isNonZeroDigitC d = false := by
            revert hnz
            cases isNonZeroDigitC d <;> simp
          have ePh2 := find_iter_phone2_nomatch d t hs (Or.inl hz)
          have hfound : detectFound true (d :: t) =
              [⟨.CreditCard, d :: t, 0, (d :: t).length, 95⟩,
               ⟨.BankAccount, d :: t, 0, (d :: t).length, 75⟩] := by
            simp only [detectFound, build_patterns, List.foldl_cons,
              List.foldl_nil, eCc1, eCc2, eSsn, eEmail, ePh1, ePh2, eIp4,
              eIp6, eMac, eDob1, eDob2, eAddr, ePp1, ePp2, eDl1, eDl2, eBank,
              eMrn1, eMrn2, eApi1, eApi2, eApi3, eApi4, sliceChars_whole, hfilt, hl, dPh, dBk, dCc, dBc,
              List.filterMap_cons, List.filterMap_nil, List.append_nil,
              List.nil_append, List.cons_append, decide_True, Bool.true_and,
              Bool.and_true, Bool.false_and, Bool.and_false, Bool.not_true,
              Bool.not_false, Bool.false_eq_true, eq_self_iff_true, if_true,
              if_false]
          rw [detect_eq, hfound,
            sortByStart_id (by
              intro m hm
              simp only [List.mem_cons, List.not_mem_nil, or_false] at hm
              rcases hm with rfl | rfl <;> rfl),
            remove_overlaps_cons₂,
            removeOverlapsGo_keep _ _ (by
              intro m hm
              simp only [List.mem_cons, List.not_mem_nil, or_false] at hm
              rcases hm with rfl
              exact ⟨hpos, by simp⟩)]
          exact ⟨⟨.CreditCard, d :: t, 0, (d :: t).length, 95⟩, by simp, rfl⟩
      · have eCc1 := find_iter_ccRe1_ne16 _ hs h13 h19 h16
        have ePh2 := find_iter_phone2_nomatch d t hs (Or.inr (by omega))
        by_cases h17 : (d :: t).length ≤ 17
        · have eBank := find_iter_bank_le17 _ hs h13 h17
          have hfound : detectFound true (d :: t) =
              [⟨.CreditCard, d :: t, 0, (d :: t).length, 95⟩,
               ⟨.BankAccount, d :: t, 0, (d :: t).length, 75⟩] := by
            simp only [detectFound, build_patterns, List.foldl_cons,
              List.foldl_nil, eCc1, eCc2, eSsn, eEmail, ePh1, ePh2, eIp4,
              eIp6, eMac, eDob1, eDob2, eAddr, ePp1, ePp2, eDl1, eDl2, eBank,
              eMrn1, eMrn2, eApi1, eApi2, eApi3, eApi4, sliceChars_whole, hfilt, hl, dPh, dBk, dCc, dBc,
              List.filterMap_cons, List.filterMap_nil, List.append_nil,
              List.nil_append, List.cons_append, decide_True, Bool.true_and,
              Bool.and_true, Bool.false_and, Bool.and_false, Bool.not_true,
              Bool.not_false, Bool.false_eq_true, eq_self_iff_true, if_true,
              if_false]
          rw [detect_eq, hfound,
            sortByStart_id (by
              intro m hm
              simp only [List.mem_cons, List.not_mem_nil, or_false] at hm
              rcases hm with rfl | rfl <;> rfl),
            remove_overlaps_cons₂,
            removeOverlapsGo_keep _ _ (by
              intro m hm
              simp only [List.mem_cons, List.not_mem_nil, or_false] at hm
              rcases hm with rfl
              exact ⟨hpos, by simp⟩)]
          exact ⟨⟨.CreditCard, d :: t, 0, (d :: t).length, 95⟩, by simp, rfl⟩
        · have eBank := find_iter_bank_ge18 _ hs (by omega)
          have hfound : detectFound true (d :: t) =
              [⟨.CreditCard, d :: t, 0, (d :: t).length, 95⟩] := by
            simp only [detectFound, build_patterns, List.foldl_cons,
              List.foldl_nil, eCc1, eCc2, eSsn, eEmail, ePh1, ePh2, eIp4,
              eIp6, eMac, eDob1, eDob2, eAddr, ePp1, ePp2, eDl1, eDl2, eBank,
              eMrn1, eMrn2, eApi1, eApi2, eApi3, eApi4, sliceChars_whole, hfilt, hl, dPh, dBk, dCc, dBc,
              List.filterMap_cons, List.filterMap_nil, List.append_nil,
              List.nil_append, List.cons_append, decide_True, Bool.true_and,
              Bool.and_true, Bool.false_and, Bool.and_false, Bool.not_true,
              Bool.not_false, Bool.false_eq_true, eq_self_iff_true, if_true,
              if_false]
          rw [detect_eq, hfound,
            sortByStart_id (by
              intro m hm
              simp only [List.mem_cons, List.not_mem_nil, or_false] at hm
              rcases hm with rfl
              rfl),
            remove_overlaps_one]
          exact ⟨⟨.CreditCard, d :: t, 0, (d :: t).length, 95⟩, by simp, rfl⟩
  · intro hl
    by_cases h16 : (d :: t).length = 16
    · have eCc1 := find_iter_ccRe1_eq16 _ hs h16
      have eBank := find_iter_bank_le17 _ hs h13 (by omega)
      have ePh2 := find_iter_phone2_nomatch d t hs (Or.inr (by omega))
      have hfound : detectFound true (d :: t) =
          [⟨.BankAccount, d :: t, 0, (d :: t).length, 75⟩] := by
        simp only [detectFound, build_patterns, List.foldl_cons,
          List.foldl_nil, eCc1, eCc2, eSsn, eEmail, ePh1, ePh2, eIp4, eIp6,
          eMac, eDob1, eDob2, eAddr, ePp1, ePp2, eDl1, eDl2, eBank, eMrn1,
          eMrn2, eApi1, eApi2, eApi3, eApi4, sliceChars_whole, hfilt, hl, dPh, dBk, dCc, dBc,
              List.filterMap_cons, List.filterMap_nil, List.append_nil,
              List.nil_append, List.cons_append, decide_True, Bool.true_and,
              Bool.and_true, Bool.false_and, Bool.and_false, Bool.not_true,
              Bool.not_false, Bool.false_eq_true, eq_self_iff_true, if_true,
              if_false]
      rw [detect_eq, hfound,
        sortByStart_id (by
          intro m hm
          simp only [List.mem_cons, List.not_mem_nil, or_false] at hm
          rcases hm with rfl
          rfl),
        remove_overlaps_one]
      intro m hm
      simp only [List.mem_cons, List.not_mem_nil, or_false] at hm
      subst hm
      simp
    · by_cases h15 : (d :: t).length ≤ 15
      · have eCc1 := find_iter_ccRe1_ne16 _ hs h13 h19 h16
        have eBank := find_iter_bank_le17 _ hs h13 (by omega)
        by_cases hnz : isNonZeroDigitC d = true
        · have ePh2 := find_iter_phone2_match d t hs hnz h13 h15
          have hfound : detectFound true (d :: t) =
              [⟨.Phone, d :: t, 0, (d :: t).length,
                 calculate_confidence .Phone (d :: t)⟩,
               ⟨.BankAccount, d :: t, 0, (d :: t).length, 75⟩] := by
            simp only [detectFound, build_patterns, List.foldl_cons,
              List.foldl_nil, eCc1, eCc2, eSsn, eEmail, ePh1, ePh2, eIp4,
              eIp6, eMac, eDob1, eDob2, eAddr, ePp1, ePp2, eDl1, eDl2, eBank,
              eMrn1, eMrn2, eApi1, eApi2, eApi3, eApi4, sliceChars_whole, hfilt, hl, dPh, dBk, dCc, dBc,
              List.filterMap_cons, List.filterMap_nil, List.append_nil,
              List.nil_append, List.cons_append, decide_True, Bool.true_and,
              Bool.and_true, Bool.false_and, Bool.and_false, Bool.not_true,
              Bool.not_false, Bool.false_eq_true, eq_self_iff_true, if_true,
              if_false]
          rw [detect_eq, hfound,
            sortByStart_id (by
              intro m hm
              simp only [List.mem_cons, List.not_mem_nil, or_false] at hm
              rcases hm with rfl | rfl <;> rfl),
            remove_overlaps_cons₂]
          intro m hm
          have hmem := removeOverlapsGo_mem _ _ m hm
          simp only [List.mem_cons, List.not_mem_nil, or_false] at hmem
          rcases hmem with rfl | rfl <;> simp
        · have hz : isNonZeroDigitC d = false := by
            revert hnz
            cases isNonZeroDigitC d <;> simp
          have ePh2 := find_iter_phone2_nomatch d t hs (Or.inl hz)
          have hfound : detectFound true (d :: t) =
              [⟨.BankAccount, d :: t, 0, (d :: t).length, 75⟩] := by
            simp only [detectFound, build_patterns, List.foldl_cons,
              List.foldl_nil, eCc1, eCc2, eSsn, eEmail, ePh1, ePh2, eIp4,
              eIp6, eMac, eDob1, eDob2, eAddr, ePp1, ePp2, eDl1, eDl2, eBank,
              eMrn1, eMrn2, eApi1, eApi2, eApi3, eApi4, sliceChars_whole, hfilt, hl, dPh, dBk, dCc, dBc,
              List.filterMap_cons, List.filterMap_nil, List.append_nil,
              List.nil_append, List.cons_append, decide_True, Bool.true_and,
              Bool.and_true, Bool.false_and, Bool.and_false, Bool.not_true,
              Bool.not_false, Bool.false_eq_true, eq_self_iff_true, if_true,
              if_false]
          rw [detect_eq, hfound,
            sortByStart_id (by
              intro m hm
              simp only [List.mem_cons, List.not_mem_nil, or_false] at hm
              rcases hm with rfl
              rfl),
            remove_overlaps_one]
          intro m hm
          simp only [List.mem_cons, List.not_mem_nil, or_false] at hm
          subst hm
          simp
      · have eCc1 := find_iter_ccRe1_ne16 _ hs h13 h19 h16
        have ePh2 := find_iter_phone2_nomatch d t hs (Or.inr (by omega))
        by_cases h17 : (d :: t).length ≤ 17
        · have eBank := find_iter_bank_le17 _ hs h13 h17
          have hfound : detectFound true (d :: t) =
              [⟨.BankAccount, d :: t, 0, (d :: t).length, 75⟩] := by
            simp only [detectFound, build_patterns, List.foldl_cons,
              List.foldl_nil, eCc1, eCc2, eSsn, eEmail, ePh1, ePh2, eIp4,
              eIp6, eMac, eDob1, eDob2, eAddr, ePp1, ePp2, eDl1, eDl2, eBank,
              eMrn1, eMrn2, eApi1, eApi2, eApi3, eApi4, sliceChars_whole, hfilt, hl, dPh, dBk, dCc, dBc,
              List.filterMap_cons, List.filterMap_nil, List.append_nil,
              List.nil_append, List.cons_append, decide_True, Bool.true_and,
              Bool.and_true, Bool.false_and, Bool.and_false, Bool.not_true,
              Bool.not_false, Bool.false_eq_true, eq_self_iff_true, if_true,
              if_false]
          rw [detect_eq, hfound,
            sortByStart_id (by
              intro m hm
              simp only [List.mem_cons, List.not_mem_nil, or_false] at hm
              rcases hm with rfl
              rfl),
            remove_overlaps_one]
          intro m hm
          simp only [List.mem_cons, List.not_mem_nil, or_false] at hm
          subst hm
          simp
        · have eBank := find_iter_bank_ge18 _ hs (by omega)
          have hfound : detectFound true (d :: t) = [] := by
            simp only [detectFound, build_patterns, List.foldl_cons,
              List.foldl_nil, eCc1, eCc2, eSsn, eEmail, ePh1, ePh2, eIp4,
              eIp6, eMac, eDob1, eDob2, eAddr, ePp1, ePp2, eDl1, eDl2, eBank,
              eMrn1, eMrn2, eApi1, eApi2, eApi3, eApi4, sliceChars_whole, hfilt, hl, dPh, dBk, dCc, dBc,
              List.filterMap_cons, List.filterMap_nil, List.append_nil,
              List.nil_append, List.cons_append, decide_True, Bool.true_and,
              Bool.and_true, Bool.false_and, Bool.and_false, Bool.not_true,
              Bool.not_false, Bool.false_eq_true, eq_self_iff_true, if_true,
              if_false]
          rw [detect_eq, hfound,
            sortByStart_id (by intro m hm; simp at hm),
            show remove_overlaps [] = [] from rfl]
          intro m hm
          simp at hm

/-- Witness for C7 at concrete inputs: the Luhn-valid 16-digit number
4532015112830366 is detected as a credit card, and the Luhn-failing
13-digit number 1234567890123 yields no credit-card match. -/
theorem C7_luhn_detect_credit_card_witness :
    (∃ m ∈ detect true ("4532015112830366".toList),
        m.pii_type = PIIType.CreditCard) ∧
    (∀ m ∈ detect true ("1234567890123".toList),
        m.pii_type ≠ PIIType.CreditCard) :=
  ⟨(C7_luhn_detect_credit_card _ (by decide) (by decide) (by decide)).1
      (by decide),
   (C7_luhn_detect_credit_card _ (by decide) (by decide) (by decide)).2
      (by decide)⟩

end GGCore
